import Mathlib

/-!
Verification of the terminal text/key engine (crates/pi-natives).

Shallow embedding of `src/text.rs` and `src/keys.rs` over sequences of
UTF-16 code units / bytes, both represented as `List Nat`.  Loops from the
Rust source are translated into fuel-indexed structural recursions; all
call sites supply fuel strictly larger than the number of loop iterations
the Rust code would perform (one unit of input is consumed per iteration),
so the fuel never runs out on the wrapped entry points.

Grapheme segmentation and East-Asian width come from external crates
(`unicode_segmentation`, `unicode_width`), not from this repository, so the
text-engine functions are parameterized by a segmentation oracle
`GraphemeFn`; a concrete model (`unit_graphemes`) built from the spec's
description is used for evaluation.
-/

set_option autoImplicit false

/-- Maximum value of a `u32`. -/
def U32_MAX : Nat := 4294967295

/-- Maximum value of an `i32` (as a `Nat`). -/
def I32_MAX_N : Nat := 2147483647

/-- Maximum value of a `usize` (64-bit). -/
def USIZE_MAX : Nat := 18446744073709551615

/-- Bitwise `a & !m` on nonnegative bit masks: removes the bits of `m` from `a`.
Agrees with the fixed-width `&!` of the source for in-range values, and keeps
high bits of `a` intact. -/
def nat_and_not (a m : Nat) : Nat := a - (a &&& m)

/-- Saturating cast from `u64` to `u32` (`utils::clamp_u32`). -/
def clamp_u32 (value : Nat) : Nat := min value U32_MAX

namespace TextEng

/-- The ESC code unit, `0x1b`. -/
def ESC : Nat := 27

/-- Clamp a tab width option into `[1, 16]`, defaulting to 3 (`clamp_tab_width`). -/
def clamp_tab_width (tab_width : Option Nat) : Nat :=
  let width := match tab_width with
    | some t => t
    | none => 3
  if width < 1 then 1 else if width > 16 then 16 else width

/-- Strip trailing NUL code units (`build_utf16_string`). -/
def build_utf16_string (data : List Nat) : List Nat :=
  (data.reverse.dropWhile (fun u => u == 0)).reverse

/-- Scan helper for CSI sequences: length to (and including) the first final
byte `0x40..=0x7e`, counted from the start of the whole sequence. -/
def find_csi_final : List Nat → Option Nat
  | [] => none
  | b :: rest =>
    if 0x40 ≤ b ∧ b ≤ 0x7e then some 3
    else (find_csi_final rest).map (· + 1)

/-- Scan helper for OSC sequences: terminated by BEL or by ESC `\`. -/
def find_osc_end : List Nat → Option Nat
  | [] => none
  | b :: rest =>
    if b = 7 then some 3
    else if b = ESC ∧ rest.head? = some 0x5c then some 4
    else (find_osc_end rest).map (· + 1)

/-- Scan helper for DCS/SOS/PM/APC sequences: terminated by ESC `\`. -/
def find_st_end : List Nat → Option Nat
  | [] => none
  | b :: rest =>
    if b = ESC ∧ rest.head? = some 0x5c then some 4
    else (find_st_end rest).map (· + 1)

/-- Scan helper for `ESC + intermediates + final (0x30..=0x7e)`. -/
def find_esc_final : List Nat → Option Nat
  | [] => none
  | b :: rest =>
    if 0x30 ≤ b ∧ b ≤ 0x7e then some 3
    else (find_esc_final rest).map (· + 1)

/-- Length in code units of the escape sequence starting at the head of the
list, if recognized (`ansi_seq_len_u16`, suffix form: the caller passes
`data.drop pos`). -/
def ansi_seq_len_u16 : List Nat → Option Nat
  | e :: b :: rest =>
    if e ≠ ESC then none
    else if b = 0x5b then find_csi_final rest
    else if b = 0x5d then find_osc_end rest
    else if b = 0x50 ∨ b = 0x58 ∨ b = 0x5e ∨ b = 0x5f then find_st_end rest
    else if 0x20 ≤ b ∧ b ≤ 0x2f then find_esc_final rest
    else if 0x40 ≤ b ∧ b ≤ 0x7e then some 2
    else none
  | _ => none

/-- Whether a recognized escape sequence is an SGR (`CSI ... m`) sequence. -/
def is_sgr_u16 (seq : List Nat) : Bool :=
  decide (3 ≤ seq.length ∧ seq.getD 1 0 = 0x5b ∧ seq.getLast? = some 109)

/-- Cell width of a single code unit on the ASCII fast path
(`ascii_cell_width_u16`; the source truncates the `u16` to `u8` first). -/
def ascii_cell_width_u16 (u : Nat) (tab_width : Nat) : Nat :=
  let b := u % 256
  if b = 9 then tab_width
  else if 0x20 ≤ b ∧ b ≤ 0x7e then 1
  else 0

/-- Grapheme segmentation oracle standing in for
`for_each_grapheme_u16_slow`'s use of the external `unicode_segmentation` /
`unicode_width` crates: given the tab width and a non-ASCII segment, yield
the grapheme slices (in order, concatenating back to the segment) paired
with their cell widths. -/
abbrev GraphemeFn := Nat → List Nat → List (List Nat × Nat)

/-- Modelled from the spec: a concrete `GraphemeFn` instance.  The spec
(§4.3) says each extended grapheme cluster contributes its East-Asian-width
cell count (0, 1, or 2) with `"\t"` forced to the tab width; this model
treats every code unit as its own grapheme with a simplified width table
(controls 0, common wide CJK ranges 2, everything else 1). -/
def model_unit_width (tab_width u : Nat) : Nat :=
  if u = 9 then tab_width
  else if u < 0x20 ∨ u = 0x7f ∨ (0x80 ≤ u ∧ u ≤ 0x9f) then 0
  else if (0x1100 ≤ u ∧ u ≤ 0x115f) ∨ (0x2e80 ≤ u ∧ u ≤ 0xa4cf) ∨
      (0xac00 ≤ u ∧ u ≤ 0xd7a3) ∨ (0xf900 ≤ u ∧ u ≤ 0xfaff) ∨
      (0xff00 ≤ u ∧ u ≤ 0xff60) ∨ (0xffe0 ≤ u ∧ u ≤ 0xffe6) then 2
  else 1

/-- Modelled from the spec: per-code-unit grapheme segmentation (see
`model_unit_width`). -/
def unit_graphemes : GraphemeFn :=
  fun tab seg => seg.map (fun u => ([u], model_unit_width tab u))

/-- ASCII inner loop of `visible_width_u16_up_to`: accumulate unit widths,
early-exiting as soon as the accumulated width exceeds the limit. -/
def vw_ascii (tab_width limit : Nat) : Nat → List Nat → Nat × Bool
  | width, [] => (width, false)
  | width, u :: rest =>
    let width := width + ascii_cell_width_u16 u tab_width
    if limit < width then (width, true)
    else vw_ascii tab_width limit width rest

/-- Grapheme inner loop of `visible_width_u16_up_to`: accumulate grapheme
widths, stopping once the limit is exceeded. -/
def vw_graph (limit : Nat) : Nat → List (List Nat × Nat) → Nat × Bool
  | width, [] => (width, false)
  | width, (_, w) :: rest =>
    let width := width + w
    if limit < width then (width, true)
    else vw_graph limit width rest

/-- Outer loop of `visible_width_u16_up_to`. -/
def vw_go (G : GraphemeFn) (limit tab_width : Nat) : Nat → Nat → List Nat → Nat × Bool
  | 0, width, _ => (width, decide (limit < width))
  | _ + 1, width, [] => (width, decide (limit < width))
  | fuel + 1, width, u :: rest' =>
    if u = ESC then
      match ansi_seq_len_u16 (u :: rest') with
      | some seq_len => vw_go G limit tab_width fuel width ((u :: rest').drop seq_len)
      | none => vw_go G limit tab_width fuel width rest'
    else
      let seg := (u :: rest').takeWhile (fun v => v ≠ ESC)
      let rest := (u :: rest').dropWhile (fun v => v ≠ ESC)
      if seg.all (fun v => decide (v ≤ 0x7f)) then
        match vw_ascii tab_width limit width seg with
        | (w, true) => (w, true)
        | (w, false) => vw_go G limit tab_width fuel w rest
      else
        match vw_graph limit width (G tab_width seg) with
        | (w, true) => (w, true)
        | (w, false) => vw_go G limit tab_width fuel w rest

/-- Visible width with early exit (`visible_width_u16_up_to`): returns the
accumulated width and whether it exceeded `limit`. -/
def visible_width_u16_up_to (G : GraphemeFn) (data : List Nat) (limit tab_width : Nat) :
    Nat × Bool :=
  vw_go G limit tab_width (data.length + 1) 0 data

/-- Visible width of a line (`visible_width_u16`). -/
def visible_width_u16 (G : GraphemeFn) (data : List Nat) (tab_width : Nat) : Nat :=
  (visible_width_u16_up_to G data USIZE_MAX tab_width).1

-- ============================================================================
-- SGR state machine
-- ============================================================================

def ATTR_BOLD : Nat := 1
def ATTR_DIM : Nat := 2
def ATTR_ITALIC : Nat := 4
def ATTR_UNDERLINE : Nat := 8
def ATTR_BLINK : Nat := 16
def ATTR_INVERSE : Nat := 64
def ATTR_HIDDEN : Nat := 128
def ATTR_STRIKE : Nat := 256

/-- SGR state: attribute bit set (a `u16` mask in the source) plus tagged
foreground/background color values (`AnsiState`).  Color encoding:
0 = unset, 1..16 basic, `0x100 | idx` indexed, `0x1000000 | rgb` truecolor. -/
structure AnsiState where
  attrs : Nat
  fg : Nat
  bg : Nat
deriving DecidableEq

/-- Default (empty) SGR state (`AnsiState::new`). -/
def AnsiState.new : AnsiState := ⟨0, 0, 0⟩

/-- Whether the SGR state is entirely default (`AnsiState::is_empty`). -/
def AnsiState.is_empty (s : AnsiState) : Bool :=
  decide (s.attrs = 0 ∧ s.fg = 0 ∧ s.bg = 0)

/-- Skip leading `;` separators (first loop of `parse_sgr_num_u16`). -/
def sgr_skip_semis : List Nat → List Nat
  | [] => []
  | p :: rest => if p = 59 then sgr_skip_semis rest else p :: rest

/-- Digit-accumulation loop of `parse_sgr_num_u16`: saturating `u32`
arithmetic, stopping after a `;`, silently skipping other units. -/
def sgr_num_go (val : Nat) : List Nat → Nat × List Nat
  | [] => (val, [])
  | p :: rest =>
    if p = 59 then (val, rest)
    else if 48 ≤ p ∧ p ≤ 57 then
      sgr_num_go (min (min (val * 10) U32_MAX + (p - 48)) U32_MAX) rest
    else sgr_num_go val rest

/-- Parse one numeric SGR parameter from raw code units
(`parse_sgr_num_u16`, suffix form: returns the remaining units). -/
def parse_sgr_num_u16 (params : List Nat) : Nat × List Nat :=
  sgr_num_go 0 (sgr_skip_semis params)

/-- Main loop of `AnsiState::apply_sgr_u16` (fuel-indexed). -/
def apply_sgr_go : Nat → AnsiState → List Nat → AnsiState
  | 0, s, _ => s
  | _ + 1, s, [] => s
  | fuel + 1, s, params =>
    let (code, rest) := parse_sgr_num_u16 params
    if code = 0 then apply_sgr_go fuel AnsiState.new rest
    else if code = 1 then apply_sgr_go fuel { s with attrs := s.attrs ||| ATTR_BOLD } rest
    else if code = 2 then apply_sgr_go fuel { s with attrs := s.attrs ||| ATTR_DIM } rest
    else if code = 3 then apply_sgr_go fuel { s with attrs := s.attrs ||| ATTR_ITALIC } rest
    else if code = 4 then apply_sgr_go fuel { s with attrs := s.attrs ||| ATTR_UNDERLINE } rest
    else if code = 5 then apply_sgr_go fuel { s with attrs := s.attrs ||| ATTR_BLINK } rest
    else if code = 7 then apply_sgr_go fuel { s with attrs := s.attrs ||| ATTR_INVERSE } rest
    else if code = 8 then apply_sgr_go fuel { s with attrs := s.attrs ||| ATTR_HIDDEN } rest
    else if code = 9 then apply_sgr_go fuel { s with attrs := s.attrs ||| ATTR_STRIKE } rest
    else if code = 21 then
      apply_sgr_go fuel { s with attrs := nat_and_not s.attrs ATTR_BOLD } rest
    else if code = 22 then
      apply_sgr_go fuel { s with attrs := nat_and_not s.attrs (ATTR_BOLD ||| ATTR_DIM) } rest
    else if code = 23 then
      apply_sgr_go fuel { s with attrs := nat_and_not s.attrs ATTR_ITALIC } rest
    else if code = 24 then
      apply_sgr_go fuel { s with attrs := nat_and_not s.attrs ATTR_UNDERLINE } rest
    else if code = 25 then
      apply_sgr_go fuel { s with attrs := nat_and_not s.attrs ATTR_BLINK } rest
    else if code = 27 then
      apply_sgr_go fuel { s with attrs := nat_and_not s.attrs ATTR_INVERSE } rest
    else if code = 28 then
      apply_sgr_go fuel { s with attrs := nat_and_not s.attrs ATTR_HIDDEN } rest
    else if code = 29 then
      apply_sgr_go fuel { s with attrs := nat_and_not s.attrs ATTR_STRIKE } rest
    else if 30 ≤ code ∧ code ≤ 37 then apply_sgr_go fuel { s with fg := code - 29 } rest
    else if code = 39 then apply_sgr_go fuel { s with fg := 0 } rest
    else if 40 ≤ code ∧ code ≤ 47 then apply_sgr_go fuel { s with bg := code - 39 } rest
    else if code = 49 then apply_sgr_go fuel { s with bg := 0 } rest
    else if 90 ≤ code ∧ code ≤ 97 then apply_sgr_go fuel { s with fg := code - 81 } rest
    else if 100 ≤ code ∧ code ≤ 107 then apply_sgr_go fuel { s with bg := code - 91 } rest
    else if code = 38 ∨ code = 48 then
      let (mode, rest1) := parse_sgr_num_u16 rest
      if mode = 5 then
        let (idx, rest2) := parse_sgr_num_u16 rest1
        let color := 0x100 ||| (idx &&& 0xff)
        apply_sgr_go fuel
          (if code = 38 then { s with fg := color } else { s with bg := color }) rest2
      else if mode = 2 then
        let (r, rest2) := parse_sgr_num_u16 rest1
        let (g, rest3) := parse_sgr_num_u16 rest2
        let (b, rest4) := parse_sgr_num_u16 rest3
        let color := 0x1000000 ||| ((r &&& 0xff) <<< 16) ||| ((g &&& 0xff) <<< 8) ||| (b &&& 0xff)
        apply_sgr_go fuel
          (if code = 38 then { s with fg := color } else { s with bg := color }) rest4
      else apply_sgr_go fuel s rest1
    else apply_sgr_go fuel s rest

/-- Apply a raw SGR parameter list (the code units between `CSI [` and `m`)
to the state (`AnsiState::apply_sgr_u16`); an empty list resets. -/
def apply_sgr_u16 (s : AnsiState) (params : List Nat) : AnsiState :=
  if params = [] then AnsiState.new
  else apply_sgr_go (params.length + 1) s params

/-- Decimal digit units of `n`, most significant first (fuel-indexed loop of
`write_u32_u16`). -/
def dec_go : Nat → Nat → List Nat → List Nat
  | 0, _, acc => acc
  | _ + 1, 0, acc => acc
  | fuel + 1, n, acc => dec_go fuel (n / 10) ((48 + n % 10) :: acc)

/-- Write a number in decimal as code units (`write_u32_u16`). -/
def write_u32_u16 (val : Nat) : List Nat :=
  if val = 0 then [48] else dec_go val val []

/-- Emit one color from the state, with `;` separation bookkeeping
(`write_color_u16`); returns the produced units and the updated
`first` flag. -/
def write_color_u16 (color : Nat) (base : Nat) (first : Bool) : List Nat × Bool :=
  if color = 0 then ([], first)
  else
    let sep : List Nat := if first then [] else [59]
    if color < 0x100 then
      let code := if color ≤ 8 then color + 29 else color + 81
      let code := if base = 48 then code + 10 else code
      (sep ++ write_u32_u16 code, false)
    else if color < 0x1000000 then
      (sep ++ write_u32_u16 base ++ [59, 53, 59] ++ write_u32_u16 (color &&& 0xff), false)
    else
      (sep ++ write_u32_u16 base ++ [59, 50, 59] ++ write_u32_u16 ((color >>> 16) &&& 0xff)
        ++ [59] ++ write_u32_u16 ((color >>> 8) &&& 0xff)
        ++ [59] ++ write_u32_u16 (color &&& 0xff), false)

/-- Attribute codes currently set, in emission order (`write_restore_u16`'s
sequence of `push_code!` calls). -/
def attr_codes (attrs : Nat) : List Nat :=
  (if attrs &&& ATTR_BOLD ≠ 0 then [1] else [])
    ++ (if attrs &&& ATTR_DIM ≠ 0 then [2] else [])
    ++ (if attrs &&& ATTR_ITALIC ≠ 0 then [3] else [])
    ++ (if attrs &&& ATTR_UNDERLINE ≠ 0 then [4] else [])
    ++ (if attrs &&& ATTR_BLINK ≠ 0 then [5] else [])
    ++ (if attrs &&& ATTR_INVERSE ≠ 0 then [7] else [])
    ++ (if attrs &&& ATTR_HIDDEN ≠ 0 then [8] else [])
    ++ (if attrs &&& ATTR_STRIKE ≠ 0 then [9] else [])

/-- Join numeric codes with `;` separators (the `first` bookkeeping). -/
def join_codes (first : Bool) : List Nat → List Nat
  | [] => []
  | c :: rest => (if first then [] else [59]) ++ write_u32_u16 c ++ join_codes false rest

/-- Serialize the state to a minimal `CSI ... m` restore sequence
(`AnsiState::write_restore_u16`); empty state emits nothing. -/
def write_restore_u16 (s : AnsiState) : List Nat :=
  if s.is_empty then []
  else
    let codes := attr_codes s.attrs
    let first := codes.isEmpty
    let (cfg, first1) := write_color_u16 s.fg 38 first
    let (cbg, _) := write_color_u16 s.bg 48 first1
    [ESC, 0x5b] ++ join_codes true codes ++ cfg ++ cbg ++ [109]

/-- Emit the active SGR codes for a new line (`write_active_codes`). -/
def write_active_codes (s : AnsiState) : List Nat :=
  if s.is_empty then [] else write_restore_u16 s

/-- Emit `CSI 24 m` when underline is active (`write_line_end_reset`). -/
def write_line_end_reset (s : AnsiState) : List Nat :=
  if s.attrs &&& ATTR_UNDERLINE ≠ 0 then [ESC, 0x5b, 50, 52, 109] else []

/-- Interior parameter units of a recognized SGR sequence (`&seq[2..len-1]`). -/
def sgr_params_of (seq : List Nat) : List Nat :=
  (seq.drop 2).take (seq.length - 3)

/-- Fold all SGR sequences of a text into the state
(`update_state_from_text`, fuel-indexed). -/
def update_state_go : Nat → AnsiState → List Nat → AnsiState
  | 0, st, _ => st
  | _ + 1, st, [] => st
  | fuel + 1, st, u :: rest =>
    match (if u = ESC then ansi_seq_len_u16 (u :: rest) else none) with
    | some L =>
      let seq := (u :: rest).take L
      update_state_go fuel
        (if is_sgr_u16 seq then apply_sgr_u16 st (sgr_params_of seq) else st)
        ((u :: rest).drop L)
    | none => update_state_go fuel st rest

/-- Apply every SGR sequence of `data` to `st` (`update_state_from_text`). -/
def update_state_from_text (st : AnsiState) (data : List Nat) : AnsiState :=
  update_state_go (data.length + 1) st data

-- ============================================================================
-- truncateToWidth
-- ============================================================================

/-- Result of a NAPI text entry point that can return its input handle
untouched (`Either<JsString, Utf16String>`): either the original string or a
freshly allocated one. -/
inductive JsOut where
  | original : JsOut
  | allocated : List Nat → JsOut
deriving DecidableEq

def ELLIPSIS_UNICODE : List Nat := [0x2026]

def ELLIPSIS_ASCII : List Nat := [0x2e, 0x2e, 0x2e]

/-- ASCII inner loop of `truncate_to_width`'s main copy: copy units while
they fit within `target_w`, stopping at the first unit that does not. -/
def trunc_ascii (tab_width target_w : Nat) : List Nat → Nat → List Nat → List Nat × Nat
  | out, w, [] => (out, w)
  | out, w, u :: rest =>
    let gw := ascii_cell_width_u16 u tab_width
    if target_w < w + gw then (out, w)
    else trunc_ascii tab_width target_w (out ++ [u]) (w + gw) rest

/-- Grapheme inner loop of `truncate_to_width`'s main copy; the `Bool`
records whether the copy stopped early (grapheme did not fit). -/
def trunc_graph (target_w : Nat) : List Nat → Nat → List (List Nat × Nat) → List Nat × Nat × Bool
  | out, w, [] => (out, w, false)
  | out, w, (g, gw) :: rest =>
    if target_w < w + gw then (out, w, true)
    else trunc_graph target_w (out ++ g) (w + gw) rest

/-- Main copy loop of `truncate_to_width` (fuel-indexed): returns the copied
prefix, its width, and whether any SGR sequence was copied. -/
def trunc_go (G : GraphemeFn) (tab_width target_w : Nat) :
    Nat → List Nat → List Nat → Nat → Bool → List Nat × Nat × Bool
  | 0, out, _, w, saw => (out, w, saw)
  | _ + 1, out, [], w, saw => (out, w, saw)
  | fuel + 1, out, u :: rest', w, saw =>
    if u = ESC then
      match ansi_seq_len_u16 (u :: rest') with
      | some L =>
        let seq := (u :: rest').take L
        trunc_go G tab_width target_w fuel (out ++ seq) ((u :: rest').drop L) w
          (saw || is_sgr_u16 seq)
      | none => trunc_go G tab_width target_w fuel (out ++ [ESC]) rest' w saw
    else
      let seg := (u :: rest').takeWhile (fun v => v ≠ ESC)
      let rest := (u :: rest').dropWhile (fun v => v ≠ ESC)
      if seg.all (fun v => decide (v ≤ 0x7f)) then
        let (out', w') := trunc_ascii tab_width target_w out w seg
        if target_w ≤ w' then (out', w', saw)
        else trunc_go G tab_width target_w fuel out' rest w' saw
      else
        let (out', w', stopped) := trunc_graph target_w out w (G tab_width seg)
        if stopped then (out', w', saw)
        else trunc_go G tab_width target_w fuel out' rest w' saw

/-- Ellipsis-only copy used when the ellipsis alone does not fit. -/
def trunc_ellipsis_go (max_width : Nat) : List Nat → Nat → List (List Nat × Nat) → List Nat × Nat
  | out, w, [] => (out, w)
  | out, w, (g, gw) :: rest =>
    if max_width < w + gw then (out, w)
    else trunc_ellipsis_go max_width (out ++ g) (w + gw) rest

/-- Truncate text to a visible width (`truncate_to_width`), keeping the
`Either` structure of the NAPI signature. -/
def truncate_to_width_e (G : GraphemeFn) (text : List Nat) (max_width : Nat)
    (ellipsis_kind : Nat) (pad : Bool) (tab_width : Option Nat) : JsOut :=
  let tab_width := clamp_tab_width tab_width
  let (text_w, exceeded) := visible_width_u16_up_to G text max_width tab_width
  if !exceeded then
    if !pad then JsOut.original
    else if text_w < max_width then
      JsOut.allocated (build_utf16_string (text ++ List.replicate (max_width - text_w) 32))
    else JsOut.original
  else
    let (ellipsis, ellipsis_w) :=
      if ellipsis_kind = 0 then (ELLIPSIS_UNICODE, 1)
      else if ellipsis_kind = 1 then (ELLIPSIS_ASCII, 3)
      else if ellipsis_kind = 2 then (([] : List Nat), 0)
      else (ELLIPSIS_UNICODE, 1)
    let target_w := max_width - ellipsis_w
    if target_w = 0 then
      let (out, w) := trunc_ellipsis_go max_width [] 0 (G tab_width ellipsis)
      let out := if pad ∧ w < max_width then out ++ List.replicate (max_width - w) 32 else out
      JsOut.allocated (build_utf16_string out)
    else
      let (out, w, saw) := trunc_go G tab_width target_w (text.length + 1) [] text 0 false
      let out := if saw then out ++ [ESC, 0x5b, 48, 109] else out
      let out := out ++ ellipsis
      let out :=
        if pad ∧ w + ellipsis_w < max_width then
          out ++ List.replicate (max_width - (w + ellipsis_w)) 32
        else out
      JsOut.allocated (build_utf16_string out)

/-- Truncate text to a visible width, with the `Either` collapsed to the
string it denotes. -/
def truncate_to_width (G : GraphemeFn) (text : List Nat) (max_width : Nat)
    (ellipsis_kind : Nat) (pad : Bool) (tab_width : Option Nat) : List Nat :=
  match truncate_to_width_e G text max_width ellipsis_kind pad tab_width with
  | JsOut.original => text
  | JsOut.allocated out => out

-- ============================================================================
-- sliceWithWidth
-- ============================================================================

/-- ASCII inner loop of `slice_with_width_impl`.  State: output, pending
escape sequences (flushed just before the first in-range cell), output
width, current column. -/
def slice_ascii (tab_width start_col end_col : Nat) (strict : Bool) :
    List Nat → List (List Nat) → Nat → Nat → List Nat →
      List Nat × List (List Nat) × Nat × Nat
  | out, pending, out_w, col, [] => (out, pending, out_w, col)
  | out, pending, out_w, col, u :: rest =>
    if end_col ≤ col then (out, pending, out_w, col)
    else
      let gw := ascii_cell_width_u16 u tab_width
      if start_col ≤ col ∧ (strict = false ∨ col + gw ≤ end_col) then
        slice_ascii tab_width start_col end_col strict
          (out ++ pending.flatten ++ [u]) [] (out_w + gw) (col + gw) rest
      else
        slice_ascii tab_width start_col end_col strict out pending out_w (col + gw) rest

/-- Grapheme inner loop of `slice_with_width_impl`. -/
def slice_graph (start_col end_col : Nat) (strict : Bool) :
    List Nat → List (List Nat) → Nat → Nat → List (List Nat × Nat) →
      List Nat × List (List Nat) × Nat × Nat
  | out, pending, out_w, col, [] => (out, pending, out_w, col)
  | out, pending, out_w, col, (g, gw) :: rest =>
    if end_col ≤ col then (out, pending, out_w, col)
    else if start_col ≤ col ∧ (strict = false ∨ col + gw ≤ end_col) then
      slice_graph start_col end_col strict
        (out ++ pending.flatten ++ g) [] (out_w + gw) (col + gw) rest
    else
      slice_graph start_col end_col strict out pending out_w (col + gw) rest

/-- Main loop of `slice_with_width_impl` (fuel-indexed); returns the output,
its width, and the remaining units for the trailing-ANSI pass. -/
def slice_go (G : GraphemeFn) (tab_width start_col end_col : Nat) (strict : Bool) :
    Nat → List Nat → List (List Nat) → Nat → Nat → List Nat → List Nat × Nat × List Nat
  | 0, out, _, out_w, _, data => (out, out_w, data)
  | _ + 1, out, _, out_w, _, [] => (out, out_w, [])
  | fuel + 1, out, pending, out_w, col, u :: rest' =>
    if ¬ (col < end_col) then (out, out_w, u :: rest')
    else if u = ESC then
      match ansi_seq_len_u16 (u :: rest') with
      | some L =>
        let seq := (u :: rest').take L
        if start_col ≤ col then
          slice_go G tab_width start_col end_col strict fuel
            (out ++ seq) pending out_w col ((u :: rest').drop L)
        else
          slice_go G tab_width start_col end_col strict fuel
            out (pending ++ [seq]) out_w col ((u :: rest').drop L)
      | none =>
        if start_col ≤ col then
          slice_go G tab_width start_col end_col strict fuel
            (out ++ [ESC]) pending out_w col rest'
        else
          slice_go G tab_width start_col end_col strict fuel out pending out_w col rest'
    else
      let seg := (u :: rest').takeWhile (fun v => v ≠ ESC)
      let rest := (u :: rest').dropWhile (fun v => v ≠ ESC)
      if seg.all (fun v => decide (v ≤ 0x7f)) then
        match slice_ascii tab_width start_col end_col strict out pending out_w col seg with
        | (out', pending', out_w', col') =>
          slice_go G tab_width start_col end_col strict fuel out' pending' out_w' col' rest
      else
        match slice_graph start_col end_col strict out pending out_w col (G tab_width seg) with
        | (out', pending', out_w', col') =>
          slice_go G tab_width start_col end_col strict fuel out' pending' out_w' col' rest

/-- Trailing pass of `slice_with_width_impl`: append escape sequences that
immediately follow the last included cell. -/
def slice_trailing : Nat → List Nat → List Nat → List Nat
  | 0, out, _ => out
  | _ + 1, out, [] => out
  | fuel + 1, out, u :: rest' =>
    match (if u = ESC then ansi_seq_len_u16 (u :: rest') else none) with
    | some L => slice_trailing fuel (out ++ (u :: rest').take L) ((u :: rest').drop L)
    | none => out

/-- Slice a range of visible columns from a line (`slice_with_width_impl`). -/
def slice_with_width_impl (G : GraphemeFn) (line : List Nat)
    (start_col length : Nat) (strict : Bool) (tab_width : Nat) : List Nat × Nat :=
  let end_col := min (start_col + length) USIZE_MAX
  let (out, out_w, rest) :=
    slice_go G tab_width start_col end_col strict (line.length + 1) [] [] 0 0 line
  (slice_trailing (rest.length + 1) out rest, out_w)

/-- NAPI wrapper `slice_with_width`: clamps the tab width, strips trailing
NULs, and clamps the width to `u32`. -/
def slice_with_width (G : GraphemeFn) (line : List Nat) (start_col length : Nat)
    (strict : Bool) (tab_width : Option Nat) : List Nat × Nat :=
  let tab := clamp_tab_width tab_width
  let (out, w) := slice_with_width_impl G line start_col length strict tab
  (build_utf16_string out, clamp_u32 w)

-- ============================================================================
-- extractSegments
-- ============================================================================

/-- Mutable state of `extract_segments_impl`'s scan. -/
structure ExtractSt where
  before : List Nat
  before_w : Nat
  after : List Nat
  after_w : Nat
  pending : List (List Nat)
  started : Bool
  ansi : AnsiState
  col : Nat
deriving DecidableEq

/-- Per-cell step shared by the ASCII and grapheme inner loops of
`extract_segments_impl` (body of the copy logic for one grapheme of width
`gw` and units `g`). -/
def extract_step (before_end after_start after_end : Nat) (strict_after : Bool)
    (e : ExtractSt) (g : List Nat) (gw : Nat) : ExtractSt :=
  if e.col < before_end then
    { e with
      before := e.before ++ e.pending.flatten ++ g
      pending := []
      before_w := e.before_w + gw
      col := e.col + gw }
  else if after_start ≤ e.col ∧ e.col < after_end then
    if strict_after = false ∨ e.col + gw ≤ after_end then
      if e.started then
        { e with after := e.after ++ g, after_w := e.after_w + gw, col := e.col + gw }
      else
        { e with
          after := e.after ++ write_restore_u16 e.ansi ++ g
          after_w := e.after_w + gw
          started := true
          col := e.col + gw }
    else { e with col := e.col + gw }
  else { e with col := e.col + gw }

/-- ASCII inner loop of `extract_segments_impl`. -/
def extract_ascii (tab_width before_end after_start after_end done_col : Nat)
    (strict_after : Bool) : ExtractSt → List Nat → ExtractSt
  | e, [] => e
  | e, u :: rest =>
    if done_col ≤ e.col then e
    else
      extract_ascii tab_width before_end after_start after_end done_col strict_after
        (extract_step before_end after_start after_end strict_after e [u]
          (ascii_cell_width_u16 u tab_width)) rest

/-- Grapheme inner loop of `extract_segments_impl`. -/
def extract_graph (before_end after_start after_end done_col : Nat)
    (strict_after : Bool) : ExtractSt → List (List Nat × Nat) → ExtractSt
  | e, [] => e
  | e, (g, gw) :: rest =>
    if done_col ≤ e.col then e
    else
      extract_graph before_end after_start after_end done_col strict_after
        (extract_step before_end after_start after_end strict_after e g gw) rest

/-- Main loop of `extract_segments_impl` (fuel-indexed). -/
def extract_go (G : GraphemeFn) (tab_width before_end after_start after_end done_col : Nat)
    (strict_after : Bool) : Nat → ExtractSt → List Nat → ExtractSt
  | 0, e, _ => e
  | _ + 1, e, [] => e
  | fuel + 1, e, u :: rest' =>
    if ¬ (e.col < done_col) then e
    else if u = ESC then
      match ansi_seq_len_u16 (u :: rest') with
      | some L =>
        let seq := (u :: rest').take L
        let e := if is_sgr_u16 seq then
            { e with ansi := apply_sgr_u16 e.ansi (sgr_params_of seq) }
          else e
        let e :=
          if e.col < before_end then { e with pending := e.pending ++ [seq] }
          else if after_start ≤ e.col ∧ e.col < after_end ∧ e.started then
            { e with after := e.after ++ seq }
          else e
        extract_go G tab_width before_end after_start after_end done_col strict_after fuel
          e ((u :: rest').drop L)
      | none =>
        let e :=
          if e.col < before_end then { e with before := e.before ++ [ESC] }
          else if after_start ≤ e.col ∧ e.col < after_end ∧ e.started then
            { e with after := e.after ++ [ESC] }
          else e
        extract_go G tab_width before_end after_start after_end done_col strict_after fuel
          e rest'
    else
      let seg := (u :: rest').takeWhile (fun v => v ≠ ESC)
      let rest := (u :: rest').dropWhile (fun v => v ≠ ESC)
      if seg.all (fun v => decide (v ≤ 0x7f)) then
        extract_go G tab_width before_end after_start after_end done_col strict_after fuel
          (extract_ascii tab_width before_end after_start after_end done_col strict_after
            e seg) rest
      else
        extract_go G tab_width before_end after_start after_end done_col strict_after fuel
          (extract_graph before_end after_start after_end done_col strict_after
            e (G tab_width seg)) rest

/-- Extract the before/after segments around an overlay region
(`extract_segments_impl`): returns `(before, before_w, after, after_w)`. -/
def extract_segments_impl (G : GraphemeFn) (line : List Nat)
    (before_end after_start after_len : Nat) (strict_after : Bool) (tab_width : Nat) :
    List Nat × Nat × List Nat × Nat :=
  let after_end := min (after_start + after_len) USIZE_MAX
  let done_col := if after_len = 0 then before_end else after_end
  let e0 : ExtractSt := ⟨[], 0, [], 0, [], false, AnsiState.new, 0⟩
  let e := extract_go G tab_width before_end after_start after_end done_col strict_after
    (line.length + 1) e0 line
  (e.before, e.before_w, e.after, e.after_w)

/-- NAPI wrapper `extract_segments`: clamps tab width, strips trailing NULs
from both segments and clamps widths to `u32`. -/
def extract_segments (G : GraphemeFn) (line : List Nat)
    (before_end after_start after_len : Nat) (strict_after : Bool)
    (tab_width : Option Nat) : List Nat × Nat × List Nat × Nat :=
  let tab := clamp_tab_width tab_width
  let (b, bw, a, aw) := extract_segments_impl G line before_end after_start after_len
    strict_after tab
  (build_utf16_string b, clamp_u32 bw, build_utf16_string a, clamp_u32 aw)

-- ============================================================================
-- sanitizeText
-- ============================================================================

/-- Scan loop of `sanitize_text` (fuel-indexed): returns the kept code units
and whether anything was removed.  The source copies the kept units
chunk-wise (`last`/`did_change` bookkeeping); the result is the same list of
kept units, in order. -/
def san_go : Nat → List Nat → List Nat × Bool
  | 0, _ => ([], false)
  | _ + 1, [] => ([], false)
  | fuel + 1, u :: rest =>
    if u = 9 ∨ u = 10 then
      let (out, ch) := san_go fuel rest
      (u :: out, ch)
    else
      match (if u = ESC then ansi_seq_len_u16 (u :: rest) else none) with
      | some L =>
        let (out, _) := san_go fuel ((u :: rest).drop L)
        (out, true)
      | none =>
        if u = 13 then
          let (out, _) := san_go fuel rest
          (out, true)
        else if u ≤ 0x1f ∨ u = 0x7f ∨ (0x80 ≤ u ∧ u ≤ 0x9f) then
          let (out, _) := san_go fuel rest
          (out, true)
        else if 0xd800 ≤ u ∧ u ≤ 0xdbff then
          match rest with
          | lo :: rest' =>
            if 0xdc00 ≤ lo ∧ lo ≤ 0xdfff then
              let (out, ch) := san_go fuel rest'
              (u :: lo :: out, ch)
            else
              let (out, _) := san_go fuel rest
              (out, true)
          | [] => ([], true)
        else if 0xdc00 ≤ u ∧ u ≤ 0xdfff then
          let (out, _) := san_go fuel rest
          (out, true)
        else
          let (out, ch) := san_go fuel rest
          (u :: out, ch)

/-- Sanitize text (`sanitize_text`), keeping the `Either` structure: the
original handle when nothing was removed, otherwise a new string. -/
def sanitize_text_e (text : List Nat) : JsOut :=
  let (out, changed) := san_go (text.length + 1) text
  if changed then JsOut.allocated (build_utf16_string out) else JsOut.original

/-- Sanitize text, with the `Either` collapsed to the string it denotes. -/
def sanitize_text (text : List Nat) : List Nat :=
  match sanitize_text_e text with
  | JsOut.original => text
  | JsOut.allocated out => out

-- ============================================================================
-- wrapTextWithAnsi
-- ============================================================================

/-- Whether a token consists only of spaces and escape sequences
(`token_is_whitespace`, fuel-indexed). -/
def token_is_ws_go : Nat → List Nat → Bool
  | 0, _ => true
  | _ + 1, [] => true
  | fuel + 1, u :: rest =>
    match (if u = ESC then ansi_seq_len_u16 (u :: rest) else none) with
    | some L => token_is_ws_go fuel ((u :: rest).drop L)
    | none => if u = 32 then token_is_ws_go fuel rest else false

/-- Whether a token is whitespace (`token_is_whitespace`). -/
def token_is_whitespace (token : List Nat) : Bool :=
  token_is_ws_go (token.length + 1) token

/-- Remove trailing spaces (`trim_end_spaces_in_place`). -/
def trim_end_spaces (line : List Nat) : List Nat :=
  (line.reverse.dropWhile (fun u => u == 32)).reverse

/-- Loop of `split_into_tokens_with_ansi` (fuel-indexed).  State: finished
tokens, current token, pending escape units, whether the current token is a
whitespace run. -/
def split_tokens_go :
    Nat → List (List Nat) → List Nat → List Nat → Bool → List Nat → List (List Nat)
  | 0, tokens, current, pending, _, _ =>
    let current := current ++ pending
    if current = [] then tokens else tokens ++ [current]
  | _ + 1, tokens, current, pending, _, [] =>
    let current := current ++ pending
    if current = [] then tokens else tokens ++ [current]
  | fuel + 1, tokens, current, pending, in_ws, u :: rest' =>
    match (if u = ESC then ansi_seq_len_u16 (u :: rest') else none) with
    | some L =>
      split_tokens_go fuel tokens current (pending ++ (u :: rest').take L) in_ws
        ((u :: rest').drop L)
    | none =>
      let is_space := decide (u = 32)
      let (tokens, current) :=
        if is_space ≠ in_ws ∧ current ≠ [] then (tokens ++ [current], ([] : List Nat))
        else (tokens, current)
      let current := current ++ pending
      split_tokens_go fuel tokens (current ++ [u]) [] is_space rest'

/-- Tokenize a line into whitespace / non-whitespace runs, with escape
sequences attached to the following character
(`split_into_tokens_with_ansi`). -/
def split_into_tokens_with_ansi (line : List Nat) : List (List Nat) :=
  split_tokens_go (line.length + 1) [] [] [] false line

/-- ASCII inner loop of `break_long_word`. -/
def blw_ascii (width tab_width : Nat) (st : AnsiState) :
    List (List Nat) → List Nat → Nat → List Nat → List (List Nat) × List Nat × Nat
  | lines, cur, cw, [] => (lines, cur, cw)
  | lines, cur, cw, u :: rest =>
    let gw := ascii_cell_width_u16 u tab_width
    let (lines, cur, cw) :=
      if width < cw + gw then
        (lines ++ [cur ++ write_line_end_reset st], write_active_codes st, 0)
      else (lines, cur, cw)
    blw_ascii width tab_width st lines (cur ++ [u]) (cw + gw) rest

/-- Grapheme inner loop of `break_long_word`. -/
def blw_graph (width : Nat) (st : AnsiState) :
    List (List Nat) → List Nat → Nat → List (List Nat × Nat) →
      List (List Nat) × List Nat × Nat
  | lines, cur, cw, [] => (lines, cur, cw)
  | lines, cur, cw, (g, gw) :: rest =>
    let (lines, cur, cw) :=
      if width < cw + gw then
        (lines ++ [cur ++ write_line_end_reset st], write_active_codes st, 0)
      else (lines, cur, cw)
    blw_graph width st lines (cur ++ g) (cw + gw) rest

/-- Outer loop of `break_long_word` (fuel-indexed).  The Rust loop does not
advance past an unrecognized ESC inside a word (its segment scan stops
immediately), so on such inputs the source spins forever; the fuel models
that by running out. -/
def blw_go (G : GraphemeFn) (width tab_width : Nat) :
    Nat → List (List Nat) → List Nat → Nat → AnsiState → List Nat →
      List (List Nat) × List Nat × Nat × AnsiState
  | 0, lines, cur, cw, st, _ => (lines, cur, cw, st)
  | _ + 1, lines, cur, cw, st, [] => (lines, cur, cw, st)
  | fuel + 1, lines, cur, cw, st, u :: rest' =>
    match (if u = ESC then ansi_seq_len_u16 (u :: rest') else none) with
    | some L =>
      let seq := (u :: rest').take L
      let st' := if is_sgr_u16 seq then apply_sgr_u16 st (sgr_params_of seq) else st
      blw_go G width tab_width fuel lines (cur ++ seq) cw st' ((u :: rest').drop L)
    | none =>
      let seg := (u :: rest').takeWhile (fun v => v ≠ ESC)
      let rest := (u :: rest').dropWhile (fun v => v ≠ ESC)
      if seg.all (fun v => decide (v ≤ 0x7f)) then
        match blw_ascii width tab_width st lines cur cw seg with
        | (lines', cur', cw') => blw_go G width tab_width fuel lines' cur' cw' st rest
      else
        match blw_graph width st lines cur cw (G tab_width seg) with
        | (lines', cur', cw') => blw_go G width tab_width fuel lines' cur' cw' st rest

/-- Force-break a token wider than the wrap width at grapheme boundaries
(`break_long_word`); also returns the updated SGR state. -/
def break_long_word (G : GraphemeFn) (word : List Nat) (width tab_width : Nat)
    (st : AnsiState) : List (List Nat) × AnsiState :=
  let cur0 := write_active_codes st
  let (lines, cur, _, st') := blw_go G width tab_width (word.length + 1) [] cur0 0 st word
  (if cur = [] then lines else lines ++ [cur], st')

/-- Token-packing loop of `wrap_single_line` (structural over the tokens). -/
def wrap_tokens_go (G : GraphemeFn) (width tab_width : Nat) :
    List (List Nat) → List (List Nat) → List Nat → Nat → AnsiState →
      List (List Nat) × List Nat
  | [], wrapped, cur, _, _ => (wrapped, cur)
  | token :: toks, wrapped, cur, cw, st =>
    let token_width := visible_width_u16 G token tab_width
    let is_ws := token_is_whitespace token
    if width < token_width ∧ is_ws = false then
      let (wrapped, cur, cw) :=
        if cur ≠ [] then (wrapped ++ [cur ++ write_line_end_reset st], ([] : List Nat), 0)
        else (wrapped, cur, cw)
      let (broken, st') := break_long_word G token width tab_width st
      match broken.getLast? with
      | some last =>
        wrap_tokens_go G width tab_width toks (wrapped ++ broken.dropLast) last
          (visible_width_u16 G last tab_width) st'
      | none => wrap_tokens_go G width tab_width toks wrapped cur cw st'
    else
      let total := cw + token_width
      if width < total ∧ 0 < cw then
        let line_to_wrap := trim_end_spaces cur ++ write_line_end_reset st
        let wrapped := wrapped ++ [line_to_wrap]
        let cur := write_active_codes st
        let (cur, cw) := if is_ws then (cur, 0) else (cur ++ token, token_width)
        wrap_tokens_go G width tab_width toks wrapped cur cw (update_state_from_text st token)
      else
        wrap_tokens_go G width tab_width toks wrapped (cur ++ token) (cw + token_width)
          (update_state_from_text st token)

/-- Wrap one physical line (`wrap_single_line`). -/
def wrap_single_line (G : GraphemeFn) (line : List Nat) (width tab_width : Nat) :
    List (List Nat) :=
  if line = [] then [[]]
  else if visible_width_u16 G line tab_width ≤ width then [line]
  else
    let tokens := split_into_tokens_with_ansi line
    let (wrapped, cur) := wrap_tokens_go G width tab_width tokens [] [] 0 AnsiState.new
    let wrapped := if cur ≠ [] then wrapped ++ [cur] else wrapped
    let wrapped := wrapped.map trim_end_spaces
    if wrapped = [] then [[]] else wrapped

/-- Split on literal newlines, keeping empty physical lines (the
`0..=text.len()` loop of `wrap_text_with_ansi_impl`). -/
def split_nl : List Nat → List (List Nat)
  | [] => [[]]
  | u :: rest =>
    if u = 10 then [] :: split_nl rest
    else
      match split_nl rest with
      | seg :: segs => (u :: seg) :: segs
      | [] => [[u]]

/-- Per-physical-line loop of `wrap_text_with_ansi_impl`: each line after
the first is prefixed with the active SGR state. -/
def wrap_lines_go (G : GraphemeFn) (width tab_width : Nat) :
    List (List Nat) → List (List Nat) → AnsiState → List (List Nat)
  | [], result, _ => result
  | seg :: segs, result, st =>
    let line_with_pfx := (if result ≠ [] then write_active_codes st else []) ++ seg
    let wrapped := wrap_single_line G line_with_pfx width tab_width
    wrap_lines_go G width tab_width segs (result ++ wrapped) (update_state_from_text st seg)

/-- Wrap text to a visible width (`wrap_text_with_ansi_impl`). -/
def wrap_text_with_ansi_impl (G : GraphemeFn) (text : List Nat) (width tab_width : Nat) :
    List (List Nat) :=
  if text = [] then [[]]
  else
    let result := wrap_lines_go G width tab_width (split_nl text) [] AnsiState.new
    if result = [] then [[]] else result

/-- NAPI wrapper `wrap_text_with_ansi`: clamps the tab width and strips
trailing NULs from every line. -/
def wrap_text_with_ansi (G : GraphemeFn) (text : List Nat) (width : Nat)
    (tab_width : Option Nat) : List (List Nat) :=
  (wrap_text_with_ansi_impl G text width (clamp_tab_width tab_width)).map build_utf16_string

end TextEng

namespace Keys

/-- Lock-bit mask: CapsLock (64) + NumLock (128) (`LOCK_MASK`). -/
def LOCK_MASK : Nat := 192

def ARROW_UP : Int := -1
def ARROW_DOWN : Int := -2
def ARROW_RIGHT : Int := -3
def ARROW_LEFT : Int := -4

def FUNC_DELETE : Int := -10
def FUNC_INSERT : Int := -11
def FUNC_PAGE_UP : Int := -12
def FUNC_PAGE_DOWN : Int := -13
def FUNC_HOME : Int := -14
def FUNC_END : Int := -15
def FUNC_CLEAR : Int := -16

def FUNC_F1 : Int := -20
def FUNC_F2 : Int := -21
def FUNC_F3 : Int := -22
def FUNC_F4 : Int := -23
def FUNC_F5 : Int := -24
def FUNC_F6 : Int := -25
def FUNC_F7 : Int := -26
def FUNC_F8 : Int := -27
def FUNC_F9 : Int := -28
def FUNC_F10 : Int := -29
def FUNC_F11 : Int := -30
def FUNC_F12 : Int := -31

def CP_ESCAPE : Int := 27
def CP_TAB : Int := 9
def CP_ENTER : Int := 13
def CP_SPACE : Int := 32
def CP_BACKSPACE : Int := 127
def CP_KP_ENTER : Int := 57414
def CP_KP_0 : Int := 57399
def CP_KP_1 : Int := 57400
def CP_KP_2 : Int := 57401
def CP_KP_3 : Int := 57402
def CP_KP_4 : Int := 57403
def CP_KP_5 : Int := 57404
def CP_KP_6 : Int := 57405
def CP_KP_7 : Int := 57406
def CP_KP_8 : Int := 57407
def CP_KP_9 : Int := 57408
def CP_KP_DECIMAL : Int := 57409

def MOD_SHIFT : Nat := 1
def MOD_ALT : Nat := 2
def MOD_CTRL : Nat := 4

/-- Map keypad navigation codepoints to functional keys (`map_keypad_nav`). -/
def map_keypad_nav (codepoint : Int) : Option Int :=
  if codepoint = CP_KP_0 then some FUNC_INSERT
  else if codepoint = CP_KP_1 then some FUNC_END
  else if codepoint = CP_KP_2 then some ARROW_DOWN
  else if codepoint = CP_KP_3 then some FUNC_PAGE_DOWN
  else if codepoint = CP_KP_4 then some ARROW_LEFT
  else if codepoint = CP_KP_5 then some FUNC_CLEAR
  else if codepoint = CP_KP_6 then some ARROW_RIGHT
  else if codepoint = CP_KP_7 then some FUNC_HOME
  else if codepoint = CP_KP_8 then some ARROW_UP
  else if codepoint = CP_KP_9 then some FUNC_PAGE_UP
  else if codepoint = CP_KP_DECIMAL then some FUNC_DELETE
  else none

/-- Parsed Kitty keyboard protocol sequence (`ParsedKittySequence`). -/
structure ParsedKittySequence where
  codepoint : Int
  shifted_key : Option Int
  base_layout_key : Option Int
  text_codepoint : Option Int
  modifier : Nat
  event_type : Option Nat
deriving DecidableEq

/-- Whether a byte is an ASCII decimal digit. -/
def is_digit (b : Nat) : Bool := decide (48 ≤ b ∧ b ≤ 57)

/-- One step of checked `u32` accumulation: `value * 10 + digit`, failing on
overflow (`checked_mul`/`checked_add` in `parse_digits`). -/
def checked_step (val d : Nat) : Option Nat :=
  let m := val * 10
  if U32_MAX < m then none
  else
    let a := m + (d - 48)
    if U32_MAX < a then none else some a

/-- Digit loop of `parse_digits` (fuel-indexed). -/
def parse_digits_go (bytes : List Nat) (e : Nat) : Nat → Nat → Nat → Option (Nat × Nat)
  | 0, val, idx => some (val, idx)
  | fuel + 1, val, idx =>
    if idx < e ∧ is_digit (bytes.getD idx 0) then
      match checked_step val (bytes.getD idx 0) with
      | some val' => parse_digits_go bytes e fuel val' (idx + 1)
      | none => none
    else some (val, idx)

/-- Parse a run of decimal digits starting at `idx`, bounded by `e`
(`parse_digits`): fails if there is no digit at `idx` or on `u32` overflow;
otherwise returns the value and the index one past the run. -/
def parse_digits (bytes : List Nat) (idx e : Nat) : Option (Nat × Nat) :=
  if idx < e ∧ is_digit (bytes.getD idx 0) then parse_digits_go bytes e (e - idx + 1) 0 idx
  else none

/-- Parse an optional digit run (`parse_optional_digits`). -/
def parse_optional_digits (bytes : List Nat) (idx e : Nat) : Option Nat × Nat :=
  if idx < e ∧ is_digit (bytes.getD idx 0) then
    match parse_digits bytes idx e with
    | some (v, i) => (some v, i)
    | none => (none, idx)
  else (none, idx)

/-- Conversion `i32::try_from(u32).ok()`. -/
def i32_of_u32 (v : Nat) : Option Int :=
  if v ≤ I32_MAX_N then some (Int.ofNat v) else none

/-- Whether `char::from_u32` succeeds (a Unicode scalar value). -/
def is_unicode_scalar (v : Nat) : Bool :=
  decide (v < 1114112 ∧ ¬ (55296 ≤ v ∧ v ≤ 57343))

/-- Text-as-codepoints trailer loop of `parse_csi_u` (fuel-indexed): keeps
only the first reported text codepoint, and only if valid; more than one
makes it ambiguous (`None`). -/
def csi_u_text_go (bytes : List Nat) (e : Nat) :
    Nat → Option Int → Nat → Nat → Option (Option Int × Nat)
  | 0, tc, _, idx => some (tc, idx)
  | fuel + 1, tc, cnt, idx =>
    if idx < e then
      if bytes.getD idx 0 = 58 then csi_u_text_go bytes e fuel tc cnt (idx + 1)
      else
        match parse_digits bytes idx e with
        | none => none
        | some (cp, idx') =>
          let cnt' := cnt + 1
          let tc' : Option Int :=
            if cnt' = 1 then
              if 32 ≤ cp ∧ cp ≤ I32_MAX_N ∧ is_unicode_scalar cp then some (Int.ofNat cp)
              else none
            else none
          let idx'' := if idx' < e ∧ bytes.getD idx' 0 = 58 then idx' + 1 else idx'
          csi_u_text_go bytes e fuel tc' cnt' idx''
    else some (tc, idx)

/-- Optional shifted-key / base-layout-key block of `parse_csi_u` (the
`:`-separated alternate keys after the codepoint). -/
def csi_u_alternates (bytes : List Nat) (e idx : Nat) :
    Option (Option Int × Option Int × Nat) :=
  if idx < e ∧ bytes.getD idx 0 = 58 then
    let p := parse_optional_digits bytes (idx + 1) e
    let shifted := p.1.bind i32_of_u32
    if p.2 < e ∧ bytes.getD p.2 0 = 58 then
      (parse_digits bytes (p.2 + 1) e).bind fun q =>
        (i32_of_u32 q.1).bind fun b => some (shifted, some b, q.2)
    else some (shifted, (none : Option Int), p.2)
  else some ((none : Option Int), (none : Option Int), idx)

/-- Modifier / event-type block of `parse_csi_u` (after the first `;`): a
missing modifier field defaults to the wire value 1. -/
def csi_u_mods (bytes : List Nat) (e idx : Nat) : Option (Nat × Option Nat × Nat) :=
  if idx < e ∧ bytes.getD idx 0 = 59 then
    (if idx + 1 < e ∧ is_digit (bytes.getD (idx + 1) 0) then parse_digits bytes (idx + 1) e
     else some (1, idx + 1)).bind fun mp =>
    (if mp.2 < e ∧ bytes.getD mp.2 0 = 58 then
        (parse_digits bytes (mp.2 + 1) e).bind fun vp => some ((some vp.1 : Option Nat), vp.2)
      else some ((none : Option Nat), mp.2)).bind fun ep =>
    some (mp.1, ep.1, ep.2)
  else some (1, (none : Option Nat), idx)

/-- Text-as-codepoints block of `parse_csi_u` (after the second `;`). -/
def csi_u_text (bytes : List Nat) (e idx : Nat) : Option (Option Int × Nat) :=
  if idx < e ∧ bytes.getD idx 0 = 59 then csi_u_text_go bytes e (e + 1) none 0 (idx + 1)
  else some ((none : Option Int), idx)

/-- Parse a full Kitty CSI-u sequence (`parse_csi_u`). -/
def parse_csi_u (bytes : List Nat) : Option ParsedKittySequence :=
  let e := bytes.length - 1
  (parse_digits bytes 2 e).bind fun cp =>
  (i32_of_u32 cp.1).bind fun codepoint =>
  (csi_u_alternates bytes e cp.2).bind fun alt =>
  (csi_u_mods bytes e alt.2.2).bind fun mm =>
  (csi_u_text bytes e mm.2.2).bind fun tp =>
  if tp.2 = e ∧ mm.1 ≠ 0 then
    some { codepoint, shifted_key := alt.1, base_layout_key := alt.2.1,
           text_codepoint := tp.1, modifier := mm.1 - 1, event_type := mm.2.1 }
  else none

/-- Letter dispatch of `parse_csi_1_letter`'s final-byte match. -/
def csi_letter_code (b : Nat) : Option Int :=
  if b = 65 then some ARROW_UP
  else if b = 66 then some ARROW_DOWN
  else if b = 67 then some ARROW_RIGHT
  else if b = 68 then some ARROW_LEFT
  else if b = 72 then some FUNC_HOME
  else if b = 70 then some FUNC_END
  else if b = 69 then some FUNC_CLEAR
  else if b = 80 then some FUNC_F1
  else if b = 81 then some FUNC_F2
  else if b = 82 then some FUNC_F3
  else if b = 83 then some FUNC_F4
  else none

/-- Parse a `CSI 1;mods <letter>` sequence (`parse_csi_1_letter`). -/
def parse_csi_1_letter (bytes : List Nat) : Option ParsedKittySequence := do
  if bytes.take 4 ≠ [27, 91, 49, 59] then none
  else
    let e := bytes.length
    let (mod_value, idx) ← parse_digits bytes 4 e
    let (event_type, idx) ←
      if idx < e ∧ bytes.getD idx 0 = 58 then do
        let idx := idx + 1
        let (ev, idx) ← parse_digits bytes idx e
        pure ((some ev : Option Nat), idx)
      else pure ((none : Option Nat), idx)
    if idx + 1 = e ∧ mod_value ≠ 0 then do
      let codepoint ← csi_letter_code (bytes.getD idx 0)
      pure
        { codepoint, shifted_key := none, base_layout_key := none, text_codepoint := none
          modifier := mod_value - 1, event_type }
    else none

/-- Functional-key table of `parse_functional`'s `key_num` match. -/
def functional_code (key_num : Nat) : Option Int :=
  if key_num = 2 then some FUNC_INSERT
  else if key_num = 3 then some FUNC_DELETE
  else if key_num = 5 then some FUNC_PAGE_UP
  else if key_num = 6 then some FUNC_PAGE_DOWN
  else if key_num = 1 ∨ key_num = 7 then some FUNC_HOME
  else if key_num = 4 ∨ key_num = 8 then some FUNC_END
  else if key_num = 11 then some FUNC_F1
  else if key_num = 12 then some FUNC_F2
  else if key_num = 13 then some FUNC_F3
  else if key_num = 14 then some FUNC_F4
  else if key_num = 15 then some FUNC_F5
  else if key_num = 17 then some FUNC_F6
  else if key_num = 18 then some FUNC_F7
  else if key_num = 19 then some FUNC_F8
  else if key_num = 20 then some FUNC_F9
  else if key_num = 21 then some FUNC_F10
  else if key_num = 23 then some FUNC_F11
  else if key_num = 24 then some FUNC_F12
  else none

/-- Parse a `CSI <num>[;mods[:event]] ~` functional-key sequence
(`parse_functional`). -/
def parse_functional (bytes : List Nat) : Option ParsedKittySequence := do
  let e := bytes.length - 1
  let (key_num, idx) ← parse_digits bytes 2 e
  let (mod_value, idx) ←
    if idx < e ∧ bytes.getD idx 0 = 59 then do
      let idx := idx + 1
      let (v, idx) ← parse_digits bytes idx e
      pure (v, idx)
    else pure (1, idx)
  let (event_type, idx) ←
    if idx < e ∧ bytes.getD idx 0 = 58 then do
      let idx := idx + 1
      let (ev, idx) ← parse_digits bytes idx e
      pure ((some ev : Option Nat), idx)
    else pure ((none : Option Nat), idx)
  if idx = e ∧ mod_value ≠ 0 then do
    let codepoint ← functional_code key_num
    pure
      { codepoint, shifted_key := none, base_layout_key := none, text_codepoint := none
        modifier := mod_value - 1, event_type }
  else none

/-- Parse a Kitty keyboard protocol sequence, dispatching on the final byte
(`parse_kitty_sequence`). -/
def parse_kitty_sequence (bytes : List Nat) : Option ParsedKittySequence :=
  if bytes.length < 4 ∨ bytes.getD 0 0 ≠ 27 ∨ bytes.getD 1 0 ≠ 91 then none
  else
    match bytes.getLast? with
    | none => none
    | some b =>
      if b = 117 then parse_csi_u bytes
      else if b = 126 then parse_functional bytes
      else if b = 65 ∨ b = 66 ∨ b = 67 ∨ b = 68 ∨ b = 69 ∨ b = 70 ∨ b = 72 ∨ b = 80 ∨
          b = 81 ∨ b = 82 ∨ b = 83 then
        parse_csi_1_letter bytes
      else none

/-- Parse an xterm `modifyOtherKeys` sequence `CSI 27;mods;keycode (~)?`
(`parse_modify_other_keys`): returns `(modifier, keycode)` with the wire
modifier already decremented. -/
def parse_modify_other_keys (bytes : List Nat) : Option (Nat × Int) := do
  if bytes.length < 7 ∨ bytes.take 5 ≠ [27, 91, 50, 55, 59] then none
  else
    let e := if bytes.getLast? = some 126 then bytes.length - 1 else bytes.length
    if e ≤ 5 then none
    else do
      let (mod_value, idx) ← parse_digits bytes 5 e
      if idx < e ∧ bytes.getD idx 0 = 59 then do
        let idx := idx + 1
        let (keycode_u32, idx) ← parse_digits bytes idx e
        if idx = e ∧ mod_value ≠ 0 then do
          let keycode ← i32_of_u32 keycode_u32
          pure (mod_value - 1, keycode)
        else none
      else none

-- ============================================================================
-- Key matching
-- ============================================================================

/-- Whether a codepoint is a known symbol key (`is_symbol_key`). -/
def is_symbol_key (cp : Int) : Bool :=
  decide (cp = 96 ∨ cp = 34 ∨ cp = 45 ∨ cp = 61 ∨ cp = 91 ∨ cp = 93 ∨ cp = 92 ∨
    cp = 59 ∨ cp = 39 ∨ cp = 44 ∨ cp = 46 ∨ cp = 47 ∨ cp = 33 ∨ cp = 64 ∨ cp = 35 ∨
    cp = 36 ∨ cp = 37 ∨ cp = 94 ∨ cp = 38 ∨ cp = 42 ∨ cp = 40 ∨ cp = 41 ∨ cp = 95 ∨
    cp = 43 ∨ cp = 124 ∨ cp = 126 ∨ cp = 123 ∨ cp = 125 ∨ cp = 58 ∨ cp = 60 ∨
    cp = 62 ∨ cp = 63)

/-- ASCII lowercasing of a byte (`to_ascii_lowercase`). -/
def ascii_lower (u : Nat) : Nat := if 65 ≤ u ∧ u ≤ 90 then u + 32 else u

/-- Case-insensitive ASCII comparison (`eq_ignore_ascii_case`). -/
def eq_ignore_case (a b : List Nat) : Bool :=
  a.map ascii_lower == b.map ascii_lower

/-- Whitespace test used to model `str::trim` (ASCII whitespace; key-spec
strings are ASCII). -/
def is_ws_unit (u : Nat) : Bool :=
  decide (u = 9 ∨ u = 10 ∨ u = 11 ∨ u = 12 ∨ u = 13 ∨ u = 32)

/-- Trim whitespace from both ends (`str::trim`). -/
def trim_ws (l : List Nat) : List Nat :=
  ((l.dropWhile is_ws_unit).reverse.dropWhile is_ws_unit).reverse

/-- Split on a separator byte, keeping empty parts (`str::split`). -/
def split_on (sep : Nat) : List Nat → List (List Nat)
  | [] => [[]]
  | u :: rest =>
    if u = sep then [] :: split_on sep rest
    else
      match split_on sep rest with
      | part :: parts => (u :: part) :: parts
      | [] => [[u]]

def strCtrl : List Nat := [99, 116, 114, 108]
def strShift : List Nat := [115, 104, 105, 102, 116]
def strAlt : List Nat := [97, 108, 116]
def strPlusWord : List Nat := [112, 108, 117, 115]
def strEsc : List Nat := [101, 115, 99]
def strEscape : List Nat := [101, 115, 99, 97, 112, 101]
def strSpace : List Nat := [115, 112, 97, 99, 101]
def strTab : List Nat := [116, 97, 98]
def strEnter : List Nat := [101, 110, 116, 101, 114]
def strReturn : List Nat := [114, 101, 116, 117, 114, 110]
def strBackspace : List Nat := [98, 97, 99, 107, 115, 112, 97, 99, 101]
def strInsert : List Nat := [105, 110, 115, 101, 114, 116]
def strDelete : List Nat := [100, 101, 108, 101, 116, 101]
def strClear : List Nat := [99, 108, 101, 97, 114]
def strHome : List Nat := [104, 111, 109, 101]
def strEnd : List Nat := [101, 110, 100]
def strPageupId : List Nat := [112, 97, 103, 101, 85, 112]
def strPagedownId : List Nat := [112, 97, 103, 101, 68, 111, 119, 110]
def strUp : List Nat := [117, 112]
def strDown : List Nat := [100, 111, 119, 110]
def strLeft : List Nat := [108, 101, 102, 116]
def strRight : List Nat := [114, 105, 103, 104, 116]

/-- Token loop of `parse_key_id` over the `+`-separated parts: modifiers
accumulate, the last non-modifier token wins as the key. -/
def parse_key_id_parts : List (List Nat) → Nat → Option (List Nat) → Nat × Option (List Nat)
  | [], m, k => (m, k)
  | part :: rest, m, k =>
    let p := trim_ws part
    if p = [] then parse_key_id_parts rest m k
    else if eq_ignore_case p strCtrl then parse_key_id_parts rest (m ||| MOD_CTRL) k
    else if eq_ignore_case p strShift then parse_key_id_parts rest (m ||| MOD_SHIFT) k
    else if eq_ignore_case p strAlt then parse_key_id_parts rest (m ||| MOD_ALT) k
    else parse_key_id_parts rest m (some p)

/-- Parse a key-spec string into `(key, modifier)` (`parse_key_id`):
handles the bare/trailing plus key, case-insensitive modifier tokens and
the `plus`/`esc` aliases. -/
def parse_key_id (key_id : List Nat) : Option (List Nat × Nat) :=
  let s := trim_ws key_id
  if s = [] then none
  else
    let (pfx, forced_plus) :=
      if s = [43] then (([] : List Nat), true)
      else if s.drop (s.length - 2) = [43, 43] ∧ 2 ≤ s.length then
        (s.take (s.length - 2), true)
      else (s, false)
    let k0 : Option (List Nat) := if forced_plus then some [43] else none
    let (modifier, key?) := parse_key_id_parts (split_on 43 pfx) 0 k0
    match key? with
    | none => none
    | some key =>
      let key :=
        if eq_ignore_case key strPlusWord then [43]
        else if eq_ignore_case key strEsc then strEsc
        else key
      some (key, modifier)

/-- Raw control character for a letter (`raw_ctrl_char`). -/
def raw_ctrl_char (letter : Nat) : Nat := ascii_lower letter - 97 + 1

/-- Legacy CTRL+symbol byte mapping (`ctrl_symbol_to_byte`). -/
def ctrl_symbol_to_byte (symbol : Nat) : Option Nat :=
  if symbol = 64 ∨ symbol = 91 ∨ symbol = 92 ∨ symbol = 93 ∨ symbol = 94 ∨ symbol = 95 then
    some (symbol - 64)
  else if symbol = 45 then some 31
  else none

/-- The immutable legacy byte-sequence table (`LEGACY_SEQUENCES`). -/
def legacy_sequences : List (List Nat × List Nat) :=
  [([27, 79, 65], strUp), ([27, 79, 66], strDown), ([27, 79, 67], strRight), ([27, 79, 68], strLeft),
   ([27, 91, 65], strUp), ([27, 91, 66], strDown), ([27, 91, 67], strRight), ([27, 91, 68], strLeft),
   ([27, 79, 72], strHome), ([27, 79, 70], strEnd),
   ([27, 91, 72], strHome), ([27, 91, 70], strEnd),
   ([27, 91, 49, 126], strHome), ([27, 91, 55, 126], strHome),
   ([27, 91, 52, 126], strEnd), ([27, 91, 56, 126], strEnd),
   ([27, 91, 69], strClear), ([27, 79, 69], strClear),
   ([27, 79, 101], strCtrl ++ [43] ++ strClear), ([27, 91, 101], strShift ++ [43] ++ strClear),
   ([27, 91, 50, 126], strInsert), ([27, 91, 50, 36], strShift ++ [43] ++ strInsert),
   ([27, 91, 50, 94], strCtrl ++ [43] ++ strInsert),
   ([27, 91, 51, 126], strDelete), ([27, 91, 51, 36], strShift ++ [43] ++ strDelete),
   ([27, 91, 51, 94], strCtrl ++ [43] ++ strDelete),
   ([27, 91, 53, 126], strPageupId), ([27, 91, 54, 126], strPagedownId),
   ([27, 91, 91, 53, 126], strPageupId), ([27, 91, 91, 54, 126], strPagedownId),
   ([27, 91, 97], strShift ++ [43] ++ strUp), ([27, 91, 98], strShift ++ [43] ++ strDown),
   ([27, 91, 99], strShift ++ [43] ++ strRight), ([27, 91, 100], strShift ++ [43] ++ strLeft),
   ([27, 79, 97], strCtrl ++ [43] ++ strUp), ([27, 79, 98], strCtrl ++ [43] ++ strDown),
   ([27, 79, 99], strCtrl ++ [43] ++ strRight), ([27, 79, 100], strCtrl ++ [43] ++ strLeft),
   ([27, 91, 53, 36], strShift ++ [43] ++ strPageupId),
   ([27, 91, 54, 36], strShift ++ [43] ++ strPagedownId),
   ([27, 91, 55, 36], strShift ++ [43] ++ strHome), ([27, 91, 56, 36], strShift ++ [43] ++ strEnd),
   ([27, 91, 53, 94], strCtrl ++ [43] ++ strPageupId),
   ([27, 91, 54, 94], strCtrl ++ [43] ++ strPagedownId),
   ([27, 91, 55, 94], strCtrl ++ [43] ++ strHome), ([27, 91, 56, 94], strCtrl ++ [43] ++ strEnd),
   ([27, 79, 80], [102, 49]), ([27, 79, 81], [102, 50]), ([27, 79, 82], [102, 51]), ([27, 79, 83], [102, 52]),
   ([27, 91, 49, 49, 126], [102, 49]), ([27, 91, 49, 50, 126], [102, 50]),
   ([27, 91, 49, 51, 126], [102, 51]), ([27, 91, 49, 52, 126], [102, 52]),
   ([27, 91, 91, 65], [102, 49]), ([27, 91, 91, 66], [102, 50]), ([27, 91, 91, 67], [102, 51]),
   ([27, 91, 91, 68], [102, 52]), ([27, 91, 91, 69], [102, 53]),
   ([27, 91, 49, 53, 126], [102, 53]), ([27, 91, 49, 55, 126], [102, 54]),
   ([27, 91, 49, 56, 126], [102, 55]), ([27, 91, 49, 57, 126], [102, 56]),
   ([27, 91, 50, 48, 126], [102, 57]), ([27, 91, 50, 49, 126], [102, 49, 48]),
   ([27, 91, 50, 51, 126], [102, 49, 49]), ([27, 91, 50, 52, 126], [102, 49, 50]),
   ([27, 98], strAlt ++ [43] ++ strLeft), ([27, 102], strAlt ++ [43] ++ strRight),
   ([27, 112], strAlt ++ [43] ++ strUp), ([27, 110], strAlt ++ [43] ++ strDown)]

/-- Exact lookup in the legacy table (`LEGACY_SEQUENCES.get`). -/
def legacy_get (bytes : List Nat) : Option (List Nat) :=
  legacy_sequences.lookup bytes

/-- NAPI `matches_legacy_sequence`. -/
def matches_legacy_sequence (data key_name : List Nat) : Bool :=
  decide (legacy_get data = some key_name)

/-- `matches_legacy_key`. -/
def matches_legacy_key (bytes key : List Nat) : Bool :=
  decide (legacy_get bytes = some key)

/-- Shift variants of `matches_legacy_modifier_sequence`'s first table. -/
def shift_variant (key : List Nat) : Option (List Nat) :=
  if key = strUp then some (strShift ++ [43] ++ strUp)
  else if key = strDown then some (strShift ++ [43] ++ strDown)
  else if key = strRight then some (strShift ++ [43] ++ strRight)
  else if key = strLeft then some (strShift ++ [43] ++ strLeft)
  else if key = strClear then some (strShift ++ [43] ++ strClear)
  else if key = strInsert then some (strShift ++ [43] ++ strInsert)
  else if key = strDelete then some (strShift ++ [43] ++ strDelete)
  else if key = strPageupId then some (strShift ++ [43] ++ strPageupId)
  else if key = strPagedownId then some (strShift ++ [43] ++ strPagedownId)
  else if key = strHome then some (strShift ++ [43] ++ strHome)
  else if key = strEnd then some (strShift ++ [43] ++ strEnd)
  else none

/-- Ctrl variants of `matches_legacy_modifier_sequence`'s second table. -/
def ctrl_variant (key : List Nat) : Option (List Nat) :=
  if key = strUp then some (strCtrl ++ [43] ++ strUp)
  else if key = strDown then some (strCtrl ++ [43] ++ strDown)
  else if key = strRight then some (strCtrl ++ [43] ++ strRight)
  else if key = strLeft then some (strCtrl ++ [43] ++ strLeft)
  else if key = strClear then some (strCtrl ++ [43] ++ strClear)
  else if key = strInsert then some (strCtrl ++ [43] ++ strInsert)
  else if key = strDelete then some (strCtrl ++ [43] ++ strDelete)
  else if key = strPageupId then some (strCtrl ++ [43] ++ strPageupId)
  else if key = strPagedownId then some (strCtrl ++ [43] ++ strPagedownId)
  else if key = strHome then some (strCtrl ++ [43] ++ strHome)
  else if key = strEnd then some (strCtrl ++ [43] ++ strEnd)
  else none

/-- `matches_legacy_modifier_sequence`. -/
def matches_legacy_modifier_sequence (bytes key : List Nat) (modifier : Nat) : Bool :=
  if modifier = MOD_SHIFT then
    match shift_variant key with
    | some expected => decide (legacy_get bytes = some expected)
    | none => false
  else if modifier = MOD_CTRL then
    match ctrl_variant key with
    | some expected => decide (legacy_get bytes = some expected)
    | none => false
  else false

/-- The `kitty_matches` closure of `matches_key_inner`: lock bits are masked
out of both the parsed and expected modifiers; keypad-nav codepoints are
remapped when no text codepoint is present; the base layout key is used as
fallback only when the primary codepoint is not a recognized ASCII letter or
known symbol. -/
def kitty_matches_fn (kp : Option ParsedKittySequence) (codepoint : Int) (m : Nat) : Bool :=
  match kp with
  | none => false
  | some p =>
    let actual_mod := nat_and_not p.modifier LOCK_MASK
    let expected_mod := nat_and_not m LOCK_MASK
    if actual_mod ≠ expected_mod then false
    else
      let (pc, pb) :=
        if p.text_codepoint = none then
          let pc :=
            match map_keypad_nav p.codepoint with
            | some mapped => mapped
            | none => p.codepoint
          let pb :=
            match p.base_layout_key with
            | some b =>
              match map_keypad_nav b with
              | some mb => some mb
              | none => some b
            | none => none
          (pc, pb)
        else (p.codepoint, p.base_layout_key)
      if pc = codepoint then true
      else
        match pb with
        | some b =>
          if b = codepoint then
            let is_ascii_letter := decide ((65 ≤ pc ∧ pc ≤ 90) ∨ (97 ≤ pc ∧ pc ≤ 122))
            let is_known_symbol := is_symbol_key pc
            !is_ascii_letter && !is_known_symbol
          else false
        | none => false

/-- The `mok_matches` closure of `matches_key_inner`: compares the parsed
modifyOtherKeys modifier with the expected one directly (no lock-bit
masking, unlike the Kitty path). -/
def mok_matches_fn (mok : Option (Nat × Int)) (keycode : Int) (m : Nat) : Bool :=
  match mok with
  | none => false
  | some (mm, kk) => decide (kk = keycode ∧ mm = m)

/-- Match input bytes against a parsed key spec (`matches_key_inner`). -/
def matches_key_inner (bytes key_id : List Nat) (kitty_protocol_active : Bool) : Bool :=
  match parse_key_id key_id with
  | none => false
  | some (key, modifier) =>
    let kitty_parsed := parse_kitty_sequence bytes
    let km := fun (c : Int) (m : Nat) => kitty_matches_fn kitty_parsed c m
    let mok := parse_modify_other_keys bytes
    let mk := fun (c : Int) (m : Nat) => mok_matches_fn mok c m
    if eq_ignore_case key strEscape || eq_ignore_case key strEsc then
      if modifier ≠ 0 then false
      else decide (bytes = [27]) || km CP_ESCAPE 0
    else if eq_ignore_case key strSpace then
      if modifier = MOD_CTRL ∧ bytes = [0] then true
      else if modifier = MOD_ALT ∧ kitty_protocol_active = false ∧ bytes = [27, 32] then true
      else if modifier = 0 then decide (bytes = [32]) || km CP_SPACE 0
      else km CP_SPACE modifier || mk CP_SPACE modifier
    else if eq_ignore_case key strTab then
      if modifier = MOD_SHIFT then
        decide (bytes = [27, 91, 90]) || km CP_TAB MOD_SHIFT || mk CP_TAB MOD_SHIFT
      else if modifier = MOD_ALT ∧ bytes = [27, 9] then true
      else if modifier = 0 then decide (bytes = [9]) || km CP_TAB 0
      else km CP_TAB modifier || mk CP_TAB modifier
    else if eq_ignore_case key strEnter || eq_ignore_case key strReturn then
      if modifier = MOD_ALT ∧ bytes = [27, 13] then true
      else if modifier = 0 then
        decide (bytes = [13]) || decide (bytes = [10]) || decide (bytes = [27, 79, 77]) ||
          km CP_ENTER 0 || km CP_KP_ENTER 0
      else
        km CP_ENTER modifier || km CP_KP_ENTER modifier || mk CP_ENTER modifier ||
          mk CP_KP_ENTER modifier
    else if eq_ignore_case key strBackspace then
      if modifier = MOD_ALT then
        decide (bytes = [27, 127]) || decide (bytes = [27, 8]) ||
          km CP_BACKSPACE MOD_ALT || mk CP_BACKSPACE MOD_ALT
      else if modifier = 0 then
        decide (bytes = [127]) || decide (bytes = [8]) || km CP_BACKSPACE 0
      else km CP_BACKSPACE modifier || mk CP_BACKSPACE modifier
    else if eq_ignore_case key strInsert then
      if modifier = 0 then matches_legacy_key bytes strInsert || km FUNC_INSERT 0
      else matches_legacy_modifier_sequence bytes strInsert modifier || km FUNC_INSERT modifier
    else if eq_ignore_case key strDelete then
      if modifier = 0 then matches_legacy_key bytes strDelete || km FUNC_DELETE 0
      else matches_legacy_modifier_sequence bytes strDelete modifier || km FUNC_DELETE modifier
    else if eq_ignore_case key strClear then
      if modifier = 0 then matches_legacy_key bytes strClear || km FUNC_CLEAR 0
      else matches_legacy_modifier_sequence bytes strClear modifier || km FUNC_CLEAR modifier
    else if eq_ignore_case key strHome then
      if modifier = 0 then matches_legacy_key bytes strHome || km FUNC_HOME 0
      else matches_legacy_modifier_sequence bytes strHome modifier || km FUNC_HOME modifier
    else if eq_ignore_case key strEnd then
      if modifier = 0 then matches_legacy_key bytes strEnd || km FUNC_END 0
      else matches_legacy_modifier_sequence bytes strEnd modifier || km FUNC_END modifier
    else if eq_ignore_case key [112, 97, 103, 101, 117, 112] then
      if modifier = 0 then matches_legacy_key bytes strPageupId || km FUNC_PAGE_UP 0
      else
        matches_legacy_modifier_sequence bytes strPageupId modifier || km FUNC_PAGE_UP modifier
    else if eq_ignore_case key [112, 97, 103, 101, 100, 111, 119, 110] then
      if modifier = 0 then matches_legacy_key bytes strPagedownId || km FUNC_PAGE_DOWN 0
      else
        matches_legacy_modifier_sequence bytes strPagedownId modifier ||
          km FUNC_PAGE_DOWN modifier
    else if eq_ignore_case key strUp then
      if modifier = MOD_ALT then decide (bytes = [27, 112]) || km ARROW_UP MOD_ALT
      else if modifier = 0 then matches_legacy_key bytes strUp || km ARROW_UP 0
      else matches_legacy_modifier_sequence bytes strUp modifier || km ARROW_UP modifier
    else if eq_ignore_case key strDown then
      if modifier = MOD_ALT then decide (bytes = [27, 110]) || km ARROW_DOWN MOD_ALT
      else if modifier = 0 then matches_legacy_key bytes strDown || km ARROW_DOWN 0
      else matches_legacy_modifier_sequence bytes strDown modifier || km ARROW_DOWN modifier
    else if eq_ignore_case key strLeft then
      if modifier = MOD_ALT then
        decide (bytes = [27, 91, 49, 59, 51, 68]) ||
          (!kitty_protocol_active && decide (bytes = [27, 66])) ||
          decide (bytes = [27, 98]) || km ARROW_LEFT MOD_ALT
      else if modifier = MOD_CTRL then
        decide (bytes = [27, 91, 49, 59, 53, 68]) ||
          matches_legacy_modifier_sequence bytes strLeft MOD_CTRL || km ARROW_LEFT MOD_CTRL
      else if modifier = 0 then matches_legacy_key bytes strLeft || km ARROW_LEFT 0
      else matches_legacy_modifier_sequence bytes strLeft modifier || km ARROW_LEFT modifier
    else if eq_ignore_case key strRight then
      if modifier = MOD_ALT then
        decide (bytes = [27, 91, 49, 59, 51, 67]) ||
          (!kitty_protocol_active && decide (bytes = [27, 70])) ||
          decide (bytes = [27, 102]) || km ARROW_RIGHT MOD_ALT
      else if modifier = MOD_CTRL then
        decide (bytes = [27, 91, 49, 59, 53, 67]) ||
          matches_legacy_modifier_sequence bytes strRight MOD_CTRL || km ARROW_RIGHT MOD_CTRL
      else if modifier = 0 then matches_legacy_key bytes strRight || km ARROW_RIGHT 0
      else matches_legacy_modifier_sequence bytes strRight modifier || km ARROW_RIGHT modifier
    else
      let f_code : Option Int :=
        match key with
        | [f, n] =>
          if (f = 102 ∨ f = 70) ∧ 49 ≤ n ∧ n ≤ 57 then some (FUNC_F1 + (Int.ofNat n - 49))
          else none
        | [f, n1, n0] =>
          if (f = 102 ∨ f = 70) ∧ n1 = 49 then
            if n0 = 48 then some FUNC_F10
            else if n0 = 49 then some FUNC_F11
            else if n0 = 50 then some FUNC_F12
            else none
          else none
        | _ => none
      match f_code with
      | some cp =>
        if modifier = 0 then matches_legacy_key bytes key
        else km cp modifier
      | none =>
        match key with
        | [ch0] =>
          if ¬ (33 ≤ ch0 ∧ ch0 ≤ 126) then false
          else
            let ch := ascii_lower ch0
            let codepoint : Int := Int.ofNat ch
            let is_letter := decide (97 ≤ ch ∧ ch ≤ 122)
            if modifier = (MOD_CTRL ||| MOD_ALT) ∧ kitty_protocol_active = false ∧
                is_letter = true then
              decide (bytes = [27, raw_ctrl_char ch])
            else if modifier = MOD_ALT ∧ kitty_protocol_active = false ∧ is_letter = true then
              decide (bytes = [27, ch])
            else if modifier = MOD_CTRL then
              if is_letter then
                if bytes = [raw_ctrl_char ch] then true
                else mk codepoint MOD_CTRL || km codepoint MOD_CTRL
              else
                match ctrl_symbol_to_byte ch with
                | some legacy_ctrl =>
                  if bytes = [legacy_ctrl] then true
                  else mk codepoint MOD_CTRL || km codepoint MOD_CTRL
                | none => mk codepoint MOD_CTRL || km codepoint MOD_CTRL
            else if modifier = (MOD_CTRL ||| MOD_SHIFT) then
              km codepoint (MOD_SHIFT + MOD_CTRL) || mk codepoint (MOD_SHIFT + MOD_CTRL)
            else if modifier = MOD_SHIFT then
              if is_letter = true ∧ bytes = [ch - 32] then true
              else km codepoint MOD_SHIFT || mk codepoint MOD_SHIFT
            else if modifier ≠ 0 then km codepoint modifier || mk codepoint modifier
            else decide (bytes = [ch]) || km codepoint 0
        | _ => false

/-- NAPI `matches_key`. -/
def matches_key (data key_id : List Nat) (kitty_protocol_active : Bool) : Bool :=
  matches_key_inner data key_id kitty_protocol_active

end Keys

-- ============================================================================
-- Proof-support definitions
-- ============================================================================

/-- Numeric value denoted by a list of ASCII digit units. -/
def digits_val (ds : List Nat) : Nat :=
  ds.foldl (fun v d => v * 10 + (d - 48)) 0

/-- A nonempty, all-digit unit list. -/
abbrev digit_list (ds : List Nat) : Prop :=
  ds ≠ [] ∧ ∀ d ∈ ds, 48 ≤ d ∧ d ≤ 57

namespace Keys

/-- The digit-scan loop shape of `parse_digits`, collecting the scanned
digits (fuel-indexed). -/
def digit_run_go (bytes : List Nat) (e : Nat) : Nat → Nat → List Nat
  | 0, _ => []
  | fuel + 1, idx =>
    if idx < e ∧ is_digit (bytes.getD idx 0) then
      bytes.getD idx 0 :: digit_run_go bytes e fuel (idx + 1)
    else []

/-- The maximal run of ASCII digits read by `parse_digits` starting at `idx`
and bounded by `e`. -/
def digit_run (bytes : List Nat) (idx e : Nat) : List Nat :=
  digit_run_go bytes e (e - idx + 1) idx

/-- The exclusive parse bound used by `parse_modify_other_keys`: the final
`~`, when present, is excluded. -/
def mok_end (bytes : List Nat) : Nat :=
  if bytes.getLast? = some 126 then bytes.length - 1 else bytes.length

end Keys

namespace TextEng

/-- The SGR codes `AnsiState::apply_sgr_u16` acts on; every other code hits
the final catch-all arm and leaves the state unchanged. -/
def sgr_recognized (code : Nat) : Bool :=
  decide (code = 0 ∨ code = 1 ∨ code = 2 ∨ code = 3 ∨ code = 4 ∨ code = 5 ∨ code = 7 ∨
    code = 8 ∨ code = 9 ∨ code = 21 ∨ code = 22 ∨ code = 23 ∨ code = 24 ∨ code = 25 ∨
    code = 27 ∨ code = 28 ∨ code = 29 ∨ (30 ≤ code ∧ code ≤ 37) ∨ code = 39 ∨
    (40 ≤ code ∧ code ≤ 47) ∨ code = 49 ∨ (90 ≤ code ∧ code ≤ 97) ∨
    (100 ≤ code ∧ code ≤ 107) ∨ code = 38 ∨ code = 48)

/-- A code unit that `sanitize_text` keeps on its own (not a control, CR,
DEL, C1 control, or surrogate). -/
def solo_keep (u : Nat) : Bool :=
  decide (u = 9 ∨ u = 10 ∨ (32 ≤ u ∧ u ≤ 126) ∨ (160 ≤ u ∧ u < 55296) ∨ 57344 ≤ u)

/-- Sanitized text: every unit is kept by `sanitize_text` on a second pass —
no removable solo units, and every high surrogate is immediately followed by
a low surrogate. -/
def san_ok : List Nat → Bool
  | [] => true
  | u :: rest =>
    if 55296 ≤ u ∧ u ≤ 56319 then
      match rest with
      | lo :: rest' => if 56320 ≤ lo ∧ lo ≤ 57343 then san_ok rest' else false
      | [] => false
    else solo_keep u && san_ok rest

/-- No unit of the list is a NUL. -/
abbrev no_nul (l : List Nat) : Prop := ∀ u ∈ l, u ≠ 0

end TextEng

-- ============================================================================
-- Basic lemmas about escape-sequence recognition
-- ============================================================================

namespace TextEng

theorem find_csi_final_bound : ∀ (l : List Nat) (n : Nat),
    find_csi_final l = some n → 3 ≤ n ∧ n ≤ l.length + 2
  | [], n => by simp [find_csi_final]
  | b :: rest, n => by
    simp only [find_csi_final]
    split
    · intro h
      injection h with h
      simp only [List.length_cons]
      omega
    · intro h
      simp only [Option.map_eq_some'] at h
      obtain ⟨m, hm, rfl⟩ := h
      have := find_csi_final_bound rest m hm
      simp only [List.length_cons]
      omega

theorem find_osc_end_bound : ∀ (l : List Nat) (n : Nat),
    find_osc_end l = some n → 3 ≤ n ∧ n ≤ l.length + 2
  | [], n => by simp [find_osc_end]
  | b :: rest, n => by
    simp only [find_osc_end]
    split
    · intro h
      injection h with h
      simp only [List.length_cons]
      omega
    · split
      · rename_i hst
        intro h
        injection h with h
        have hne : rest ≠ [] := by
          intro hr
          rw [hr] at hst
          simp at hst
        have : 1 ≤ rest.length := List.length_pos.mpr hne
        simp only [List.length_cons]
        omega
      · intro h
        simp only [Option.map_eq_some'] at h
        obtain ⟨m, hm, rfl⟩ := h
        have := find_osc_end_bound rest m hm
        simp only [List.length_cons]
        omega

theorem find_st_end_bound : ∀ (l : List Nat) (n : Nat),
    find_st_end l = some n → 3 ≤ n ∧ n ≤ l.length + 2
  | [], n => by simp [find_st_end]
  | b :: rest, n => by
    simp only [find_st_end]
    split
    · rename_i hst
      intro h
      injection h with h
      have hne : rest ≠ [] := by
        intro hr
        rw [hr] at hst
        simp at hst
      have : 1 ≤ rest.length := List.length_pos.mpr hne
      simp only [List.length_cons]
      omega
    · intro h
      simp only [Option.map_eq_some'] at h
      obtain ⟨m, hm, rfl⟩ := h
      have := find_st_end_bound rest m hm
      simp only [List.length_cons]
      omega

theorem find_esc_final_bound : ∀ (l : List Nat) (n : Nat),
    find_esc_final l = some n → 3 ≤ n ∧ n ≤ l.length + 2
  | [], n => by simp [find_esc_final]
  | b :: rest, n => by
    simp only [find_esc_final]
    split
    · intro h
      injection h with h
      simp only [List.length_cons]
      omega
    · intro h
      simp only [Option.map_eq_some'] at h
      obtain ⟨m, hm, rfl⟩ := h
      have := find_esc_final_bound rest m hm
      simp only [List.length_cons]
      omega

/-- Every recognized escape sequence has length at least 2 and fits inside
the remaining input. -/
theorem ansi_seq_len_u16_bound : ∀ (l : List Nat) (n : Nat),
    ansi_seq_len_u16 l = some n → 2 ≤ n ∧ n ≤ l.length
  | [], n => by simp [ansi_seq_len_u16]
  | [e], n => by simp [ansi_seq_len_u16]
  | e :: b :: rest, n => by
    simp only [ansi_seq_len_u16]
    split
    · intro h
      exact absurd h (by simp)
    split
    · intro h
      have := find_csi_final_bound rest n h
      simp only [List.length_cons]
      omega
    split
    · intro h
      have := find_osc_end_bound rest n h
      simp only [List.length_cons]
      omega
    split
    · intro h
      have := find_st_end_bound rest n h
      simp only [List.length_cons]
      omega
    split
    · intro h
      have := find_esc_final_bound rest n h
      simp only [List.length_cons]
      omega
    split
    · intro h
      injection h with h
      simp only [List.length_cons]
      omega
    · intro h
      exact absurd h (by simp)

end TextEng

-- ============================================================================
-- Claim C1 (lock-bit independence of matches_key)
-- ============================================================================

/-- C1: the claim states that `matches_key` returns identical results
whether or not the CapsLock/NumLock bits (64/128) are set in the wire
modifier field, on every matching path including the xterm modifyOtherKeys
path.  This holds on the Kitty CSI-u path (third conjunct: tab with wire
mods `69 = 1 + Ctrl + CapsLock` still matches `ctrl+tab`), but fails on the
modifyOtherKeys path: `ESC [27;5;9~` (wire mods 5, i.e. Ctrl) matches
`ctrl+tab` while `ESC [27;69;9~` (wire mods 69, i.e. Ctrl+CapsLock) does
not, because `mok_matches` compares the parsed modifier without masking the
lock bits. -/
theorem claim_C1_mok_lock_bits_divergence :
    Keys.matches_key [27, 91, 50, 55, 59, 53, 59, 57, 126]
      [99, 116, 114, 108, 43, 116, 97, 98] false = true ∧
    Keys.matches_key [27, 91, 50, 55, 59, 54, 57, 59, 57, 126]
      [99, 116, 114, 108, 43, 116, 97, 98] false = false ∧
    Keys.matches_key [27, 91, 57, 59, 54, 57, 117]
      [99, 116, 114, 108, 43, 116, 97, 98] false = true ∧
    Keys.matches_key [27, 91, 57, 59, 53, 117]
      [99, 116, 114, 108, 43, 116, 97, 98] false = true := by decide

-- ============================================================================
-- Claim C3 (truncation width bound)
-- ============================================================================

/-- C3: the claim states `visible_width (truncate_to_width t max_width ...)
≤ max_width` for every input.  Counterexample in the code: for
`t = "\x1b[31ma\x1b[1111"` (an SGR sequence, a visible `a`, then an
unterminated CSI introducer followed by digits), `max_width = 5`, ASCII
ellipsis, no padding, the truncated output re-parses with the dangling ESC
absorbing the appended `\x1b[0m` reset up to its `[`, which exposes the
reset's `0m` as visible text: the output's visible width is 6 > 5. -/
theorem claim_C3_truncate_overshoot :
    TextEng.truncate_to_width TextEng.unit_graphemes
        [27, 91, 51, 49, 109, 97, 27, 91, 49, 49, 49, 49, 49] 5 1 false none
      = [27, 91, 51, 49, 109, 97, 27, 91, 27, 91, 48, 109, 46, 46, 46] ∧
    TextEng.visible_width_u16 TextEng.unit_graphemes
        (TextEng.truncate_to_width TextEng.unit_graphemes
          [27, 91, 51, 49, 109, 97, 27, 91, 49, 49, 49, 49, 49] 5 1 false none)
        (TextEng.clamp_tab_width none) = 6 ∧
    5 < 6 := by decide

-- ============================================================================
-- Claim C9 (extract_segments scenario)
-- ============================================================================

/-- C9: for the line `"\x1b[31mhello world\x1b[0m"` with `before_end = 5`,
`after_start = 6`, `after_len = 5`, `extract_segments` returns
`before = "\x1b[31mhello"` and an `after` that begins with a synthesized
`"\x1b[31m"` followed by `"world"` (for either strictness setting); the
last conjunct shows the prefix is exactly the serialization of the SGR
state accumulated from the original `"\x1b[31m"`. -/
theorem claim_C9_extract_segments_scenario :
    (∀ strict_after : Bool,
      TextEng.extract_segments TextEng.unit_graphemes
          [27, 91, 51, 49, 109, 104, 101, 108, 108, 111, 32,
           119, 111, 114, 108, 100, 27, 91, 48, 109] 5 6 5 strict_after none
        = ([27, 91, 51, 49, 109, 104, 101, 108, 108, 111], 5,
           [27, 91, 51, 49, 109] ++ [119, 111, 114, 108, 100], 5)) ∧
    TextEng.write_restore_u16
        (TextEng.update_state_from_text TextEng.AnsiState.new [27, 91, 51, 49, 109])
      = [27, 91, 51, 49, 109] := by decide

-- ============================================================================
-- Claim C4 (slice width bound, strict mode)
-- ============================================================================

namespace TextEng

theorem slice_ascii_invariant (tw sc ec L : Nat) (hec : ec ≤ sc + L) :
    ∀ (seg out : List Nat) (pending : List (List Nat)) (out_w col : Nat),
      out_w + sc ≤ max col sc → out_w ≤ L →
      (slice_ascii tw sc ec true out pending out_w col seg).2.2.1 + sc ≤
          max (slice_ascii tw sc ec true out pending out_w col seg).2.2.2 sc ∧
        (slice_ascii tw sc ec true out pending out_w col seg).2.2.1 ≤ L
  | [], out, pending, out_w, col, h1, h2 => by
    simp only [slice_ascii]
    exact ⟨h1, h2⟩
  | u :: rest, out, pending, out_w, col, h1, h2 => by
    simp only [slice_ascii]
    split
    · exact ⟨h1, h2⟩
    · rename_i hcol
      split
      · rename_i hc
        have hfit : col + ascii_cell_width_u16 u tw ≤ ec := by
          rcases hc.2 with h | h
          · simp at h
          · exact h
        have hsc : sc ≤ col := hc.1
        exact slice_ascii_invariant tw sc ec L hec rest _ _ _ _
          (by simp only [Nat.max_eq_left (Nat.le_trans hsc (Nat.le_add_right _ _))]
              have : max col sc = col := Nat.max_eq_left hsc
              omega)
          (by have : max col sc = col := Nat.max_eq_left hsc
              omega)
      · exact slice_ascii_invariant tw sc ec L hec rest _ _ _ _
          (le_trans h1 (max_le_max (Nat.le_add_right _ _) (le_refl _))) h2

theorem slice_graph_invariant (sc ec L : Nat) (hec : ec ≤ sc + L) :
    ∀ (gs : List (List Nat × Nat)) (out : List Nat) (pending : List (List Nat))
      (out_w col : Nat),
      out_w + sc ≤ max col sc → out_w ≤ L →
      (slice_graph sc ec true out pending out_w col gs).2.2.1 + sc ≤
          max (slice_graph sc ec true out pending out_w col gs).2.2.2 sc ∧
        (slice_graph sc ec true out pending out_w col gs).2.2.1 ≤ L
  | [], out, pending, out_w, col, h1, h2 => by
    simp only [slice_graph]
    exact ⟨h1, h2⟩
  | (g, gw) :: rest, out, pending, out_w, col, h1, h2 => by
    simp only [slice_graph]
    split
    · exact ⟨h1, h2⟩
    · rename_i hcol
      split
      · rename_i hc
        have hfit : col + gw ≤ ec := by
          rcases hc.2 with h | h
          · simp at h
          · exact h
        have hsc : sc ≤ col := hc.1
        exact slice_graph_invariant sc ec L hec rest _ _ _ _
          (by have : max col sc = col := Nat.max_eq_left hsc
              have : max (col + gw) sc = col + gw :=
                Nat.max_eq_left (Nat.le_trans hsc (Nat.le_add_right _ _))
              omega)
          (by have : max col sc = col := Nat.max_eq_left hsc
              omega)
      · exact slice_graph_invariant sc ec L hec rest _ _ _ _
          (le_trans h1 (max_le_max (Nat.le_add_right _ _) (le_refl _))) h2

theorem slice_go_w_le (G : GraphemeFn) (tw sc ec L : Nat) (hec : ec ≤ sc + L) :
    ∀ (fuel : Nat) (data out : List Nat) (pending : List (List Nat)) (out_w col : Nat),
      out_w + sc ≤ max col sc → out_w ≤ L →
      (slice_go G tw sc ec true fuel out pending out_w col data).2.1 ≤ L
  | 0, data, out, pending, out_w, col, _, h2 => by simp [slice_go, h2]
  | fuel + 1, [], out, pending, out_w, col, _, h2 => by simp [slice_go, h2]
  | fuel + 1, u :: rest', out, pending, out_w, col, h1, h2 => by
    simp only [slice_go]
    split
    · exact h2
    split
    · rename_i hesc
      split
      · split
        · exact slice_go_w_le G tw sc ec L hec fuel _ _ _ _ _ h1 h2
        · exact slice_go_w_le G tw sc ec L hec fuel _ _ _ _ _ h1 h2
      · split
        · exact slice_go_w_le G tw sc ec L hec fuel _ _ _ _ _ h1 h2
        · exact slice_go_w_le G tw sc ec L hec fuel _ _ _ _ _ h1 h2
    · split
      · rename_i hascii heq
        rcases heq' : slice_ascii tw sc ec true out pending out_w col
            ((u :: rest').takeWhile (fun v => v ≠ ESC)) with ⟨o', p', w', c'⟩
        have hinv := slice_ascii_invariant tw sc ec L hec
          ((u :: rest').takeWhile (fun v => v ≠ ESC)) out pending out_w col h1 h2
        rw [heq'] at hinv
        simp only at hinv
        exact slice_go_w_le G tw sc ec L hec fuel _ _ _ _ _ hinv.1 hinv.2
      · rename_i hascii
        rcases heq' : slice_graph sc ec true out pending out_w col
            (G tw ((u :: rest').takeWhile (fun v => v ≠ ESC))) with ⟨o', p', w', c'⟩
        have hinv := slice_graph_invariant sc ec L hec
          (G tw ((u :: rest').takeWhile (fun v => v ≠ ESC))) out pending out_w col h1 h2
        rw [heq'] at hinv
        simp only at hinv
        exact slice_go_w_le G tw sc ec L hec fuel _ _ _ _ _ hinv.1 hinv.2

end TextEng

/-- C4: for every input, start column, length and tab width, the width of
the text produced by `slice_with_width` in strict mode is at most `length`
(first conjunct, for an arbitrary grapheme oracle); and in strict mode a
multi-cell grapheme that would straddle the end-column boundary is dropped
entirely, while non-strict mode lets it through past the requested width
(remaining conjuncts, on a concrete wide grapheme). -/
theorem claim_C4_slice_width_bound :
    (∀ (G : TextEng.GraphemeFn) (line : List Nat) (start_col length : Nat)
        (tab_width : Option Nat),
      (TextEng.slice_with_width G line start_col length true tab_width).2 ≤ length) ∧
    TextEng.slice_with_width_impl TextEng.unit_graphemes [97, 19990] 0 2 true 3
      = ([97], 1) ∧
    TextEng.slice_with_width_impl TextEng.unit_graphemes [97, 19990] 0 2 false 3
      = ([97, 19990], 3) := by
  refine ⟨?_, by decide, by decide⟩
  intro G line sc len tw
  unfold TextEng.slice_with_width TextEng.slice_with_width_impl
  rcases heq : TextEng.slice_go G (TextEng.clamp_tab_width tw) sc
      (min (sc + len) USIZE_MAX) true (line.length + 1) [] [] 0 0 line with ⟨o, w, r⟩
  have hb := TextEng.slice_go_w_le G (TextEng.clamp_tab_width tw) sc
    (min (sc + len) USIZE_MAX) len (Nat.min_le_left _ _) (line.length + 1) line [] [] 0 0
    (by simp) (Nat.zero_le _)
  rw [heq] at hb
  simp only at hb
  simp only [heq]
  exact le_trans (Nat.min_le_left _ _) hb

-- ============================================================================
-- Claim C8 (round-trip of truncate_to_width on fitting input)
-- ============================================================================

namespace TextEng

theorem vw_ascii_mono (tw lim : Nat) :
    ∀ (seg : List Nat) (w : Nat), w ≤ (vw_ascii tw lim w seg).1
  | [], w => le_refl _
  | u :: rest, w => by
    simp only [vw_ascii]
    split
    · exact Nat.le_add_right _ _
    · exact le_trans (Nat.le_add_right _ _) (vw_ascii_mono tw lim rest _)

theorem vw_graph_mono (lim : Nat) :
    ∀ (gs : List (List Nat × Nat)) (w : Nat), w ≤ (vw_graph lim w gs).1
  | [], w => le_refl _
  | (g, gw) :: rest, w => by
    simp only [vw_graph]
    split
    · exact Nat.le_add_right _ _
    · exact le_trans (Nat.le_add_right _ _) (vw_graph_mono lim rest _)

theorem vw_ascii_compare (tw lim lim' : Nat) (hll : lim ≤ lim') :
    ∀ (seg : List Nat) (w : Nat),
      (vw_ascii tw lim w seg).2 = true → lim < (vw_ascii tw lim' w seg).1
  | [], w => by simp [vw_ascii]
  | u :: rest, w => by
    simp only [vw_ascii]
    split
    · rename_i hlt
      intro _
      split
      · omega
      · exact lt_of_lt_of_le hlt (vw_ascii_mono tw lim' rest _)
    · rename_i hge
      intro h
      have hge' : ¬ lim' < w + ascii_cell_width_u16 u tw := by omega
      rw [if_neg hge']
      exact vw_ascii_compare tw lim lim' hll rest _ h

theorem vw_graph_compare (lim lim' : Nat) (hll : lim ≤ lim') :
    ∀ (gs : List (List Nat × Nat)) (w : Nat),
      (vw_graph lim w gs).2 = true → lim < (vw_graph lim' w gs).1
  | [], w => by simp [vw_graph]
  | (g, gw) :: rest, w => by
    simp only [vw_graph]
    split
    · rename_i hlt
      intro _
      split
      · omega
      · exact lt_of_lt_of_le hlt (vw_graph_mono lim' rest _)
    · rename_i hge
      intro h
      have hge' : ¬ lim' < w + gw := by omega
      rw [if_neg hge']
      exact vw_graph_compare lim lim' hll rest _ h

theorem vw_ascii_nofail (tw lim lim' : Nat) (hll : lim ≤ lim') :
    ∀ (seg : List Nat) (w : Nat),
      (vw_ascii tw lim w seg).2 = false → vw_ascii tw lim' w seg = vw_ascii tw lim w seg
  | [], w => by simp [vw_ascii]
  | u :: rest, w => by
    simp only [vw_ascii]
    split
    · simp
    · rename_i hge
      intro h
      have hge' : ¬ lim' < w + ascii_cell_width_u16 u tw := by omega
      rw [if_neg hge']
      exact vw_ascii_nofail tw lim lim' hll rest _ h

theorem vw_graph_nofail (lim lim' : Nat) (hll : lim ≤ lim') :
    ∀ (gs : List (List Nat × Nat)) (w : Nat),
      (vw_graph lim w gs).2 = false → vw_graph lim' w gs = vw_graph lim w gs
  | [], w => by simp [vw_graph]
  | (g, gw) :: rest, w => by
    simp only [vw_graph]
    split
    · simp
    · rename_i hge
      intro h
      have hge' : ¬ lim' < w + gw := by omega
      rw [if_neg hge']
      exact vw_graph_nofail lim lim' hll rest _ h

theorem vw_go_mono (G : GraphemeFn) (lim tw : Nat) :
    ∀ (fuel : Nat) (w : Nat) (d : List Nat), w ≤ (vw_go G lim tw fuel w d).1
  | 0, w, d => le_refl _
  | fuel + 1, w, [] => le_refl _
  | fuel + 1, w, u :: rest' => by
    simp only [vw_go]
    split
    · split
      · exact vw_go_mono G lim tw fuel w _
      · exact vw_go_mono G lim tw fuel w _
    · split
      · rcases heq : vw_ascii tw lim w ((u :: rest').takeWhile (fun v => v ≠ ESC))
            with ⟨wa, fa⟩
        have hm := vw_ascii_mono tw lim ((u :: rest').takeWhile (fun v => v ≠ ESC)) w
        rw [heq] at hm
        cases fa
        · exact le_trans hm (vw_go_mono G lim tw fuel wa _)
        · exact hm
      · rcases heq : vw_graph lim w (G tw ((u :: rest').takeWhile (fun v => v ≠ ESC)))
            with ⟨wa, fa⟩
        have hm := vw_graph_mono lim (G tw ((u :: rest').takeWhile (fun v => v ≠ ESC))) w
        rw [heq] at hm
        cases fa
        · exact le_trans hm (vw_go_mono G lim tw fuel wa _)
        · exact hm

theorem vw_go_compare (G : GraphemeFn) (lim lim' tw : Nat) (hll : lim ≤ lim') :
    ∀ (fuel : Nat) (w : Nat) (d : List Nat),
      (vw_go G lim tw fuel w d).2 = true → lim < (vw_go G lim' tw fuel w d).1
  | 0, w, d => by
    simp only [vw_go]
    intro h
    simpa using of_decide_eq_true h
  | fuel + 1, w, [] => by
    simp only [vw_go]
    intro h
    simpa using of_decide_eq_true h
  | fuel + 1, w, u :: rest' => by
    simp only [vw_go]
    split
    · split
      · exact vw_go_compare G lim lim' tw hll fuel w _
      · exact vw_go_compare G lim lim' tw hll fuel w _
    · split
      · rcases heqL : vw_ascii tw lim w ((u :: rest').takeWhile (fun v => v ≠ ESC))
            with ⟨wa, fa⟩
        cases fa
        · have hnf := vw_ascii_nofail tw lim lim' hll
            ((u :: rest').takeWhile (fun v => v ≠ ESC)) w (by rw [heqL])
          rw [heqL] at hnf
          rw [hnf]
          exact vw_go_compare G lim lim' tw hll fuel wa _
        · intro _
          have hcmp := vw_ascii_compare tw lim lim' hll
            ((u :: rest').takeWhile (fun v => v ≠ ESC)) w (by rw [heqL])
          rcases heqH : vw_ascii tw lim' w ((u :: rest').takeWhile (fun v => v ≠ ESC))
              with ⟨wb, fb⟩
          rw [heqH] at hcmp
          simp only at hcmp
          cases fb
          · exact lt_of_lt_of_le hcmp (vw_go_mono G lim' tw fuel wb _)
          · exact hcmp
      · rcases heqL : vw_graph lim w (G tw ((u :: rest').takeWhile (fun v => v ≠ ESC)))
            with ⟨wa, fa⟩
        cases fa
        · have hnf := vw_graph_nofail lim lim' hll
            (G tw ((u :: rest').takeWhile (fun v => v ≠ ESC))) w (by rw [heqL])
          rw [heqL] at hnf
          rw [hnf]
          exact vw_go_compare G lim lim' tw hll fuel wa _
        · intro _
          have hcmp := vw_graph_compare lim lim' hll
            (G tw ((u :: rest').takeWhile (fun v => v ≠ ESC))) w (by rw [heqL])
          rcases heqH : vw_graph lim' w (G tw ((u :: rest').takeWhile (fun v => v ≠ ESC)))
              with ⟨wb, fb⟩
          rw [heqH] at hcmp
          simp only at hcmp
          cases fb
          · exact lt_of_lt_of_le hcmp (vw_go_mono G lim' tw fuel wb _)
          · exact hcmp

/-- If the visible width of `data` is at most `lim ≤ usize::MAX`, the
early-exit width check does not report `exceeded`. -/
theorem vw_up_to_not_exceeded (G : GraphemeFn) (data : List Nat) (lim tab : Nat)
    (hlim : lim ≤ USIZE_MAX) (h : visible_width_u16 G data tab ≤ lim) :
    (visible_width_u16_up_to G data lim tab).2 = false := by
  by_contra hx
  have hx' : (visible_width_u16_up_to G data lim tab).2 = true := by
    revert hx
    cases (visible_width_u16_up_to G data lim tab).2 <;> simp
  have := vw_go_compare G lim USIZE_MAX tab hlim (data.length + 1) 0 data hx'
  exact absurd h (by simpa [visible_width_u16, visible_width_u16_up_to] using this)

end TextEng

/-- C8: for every input whose visible width is at most `max_width`
(with `max_width` in `usize` range), `truncate_to_width` with `pad = false`
returns the original string unchanged (both as the zero-copy `Either::A`
and as the denoted text); in particular this holds at
`max_width = visible_width t`. -/
theorem claim_C8_truncate_roundtrip (G : TextEng.GraphemeFn) (t : List Nat)
    (max_width ellipsis_kind : Nat) (tab_width : Option Nat)
    (hmw : max_width ≤ USIZE_MAX)
    (hfit : TextEng.visible_width_u16 G t (TextEng.clamp_tab_width tab_width) ≤ max_width) :
    TextEng.truncate_to_width_e G t max_width ellipsis_kind false tab_width
        = TextEng.JsOut.original ∧
      TextEng.truncate_to_width G t max_width ellipsis_kind false tab_width = t := by
  have hexc := TextEng.vw_up_to_not_exceeded G t max_width
    (TextEng.clamp_tab_width tab_width) hmw hfit
  rcases huv : TextEng.visible_width_u16_up_to G t max_width
      (TextEng.clamp_tab_width tab_width) with ⟨w0, ex⟩
  rw [huv] at hexc
  simp only at hexc
  subst hexc
  constructor
  · unfold TextEng.truncate_to_width_e
    simp [huv]
  · unfold TextEng.truncate_to_width TextEng.truncate_to_width_e
    simp [huv]

/-- Witness for C8 at a concrete fitting input (`"hi"` at width 2). -/
theorem claim_C8_truncate_roundtrip_witness :
    TextEng.truncate_to_width_e TextEng.unit_graphemes [104, 105] 2 0 false none
        = TextEng.JsOut.original ∧
      TextEng.truncate_to_width TextEng.unit_graphemes [104, 105] 2 0 false none
        = [104, 105] :=
  claim_C8_truncate_roundtrip TextEng.unit_graphemes [104, 105] 2 0 none
    (by decide) (by decide)

-- ============================================================================
-- Claim C2 (trailing-space trimming in wrap_text_with_ansi)
-- ============================================================================

theorem dropWhile_head_not (p : Nat → Bool) :
    ∀ (l : List Nat) (a : Nat), (l.dropWhile p).head? = some a → p a = false
  | [], a => by simp
  | b :: rest, a => by
    simp only [List.dropWhile_cons]
    split
    · exact dropWhile_head_not p rest a
    · rename_i hpb
      intro h
      injection h with h
      subst h
      simpa using hpb

namespace TextEng

/-- A trimmed line never ends in a space. -/
theorem trim_end_spaces_getLast (l : List Nat) :
    (trim_end_spaces l).getLast? ≠ some 32 := by
  intro h
  unfold trim_end_spaces at h
  rw [List.getLast?_reverse] at h
  have := dropWhile_head_not (fun u => u == 32) l.reverse 32 h
  simp at this

/-- A NUL-stripped string never ends in a NUL. -/
theorem build_utf16_string_getLast (l : List Nat) :
    (build_utf16_string l).getLast? ≠ some 0 := by
  intro h
  unfold build_utf16_string at h
  rw [List.getLast?_reverse] at h
  have := dropWhile_head_not (fun u => u == 0) l.reverse 0 h
  simp at this

/-- Every line produced by `wrap_single_line` either has no trailing space
(the wrapping path trims every line) or already fits within the width (the
fast path returns it verbatim). -/
theorem wrap_single_line_cases (G : GraphemeFn) (width tab : Nat) (line : List Nat) :
    ∀ L ∈ wrap_single_line G line width tab,
      L.getLast? ≠ some 32 ∨ visible_width_u16 G L tab ≤ width := by
  intro L hL
  unfold wrap_single_line at hL
  split at hL
  · simp only [List.mem_singleton] at hL
    subst hL
    left
    simp
  · split at hL
    · rename_i hfit
      simp only [List.mem_singleton] at hL
      subst hL
      right
      exact hfit
    · rcases heq : wrap_tokens_go G width tab (split_into_tokens_with_ansi line) [] [] 0
          AnsiState.new with ⟨W, C⟩
      simp only [heq] at hL
      by_cases hMe : (if C ≠ [] then W ++ [C] else W).map trim_end_spaces = []
      · rw [if_pos hMe] at hL
        simp only [List.mem_singleton] at hL
        subst hL
        left
        simp
      · rw [if_neg hMe] at hL
        simp only [List.mem_map] at hL
        obtain ⟨x, _, rfl⟩ := hL
        left
        exact trim_end_spaces_getLast x

theorem wrap_lines_go_cases (G : GraphemeFn) (width tab : Nat) :
    ∀ (segs result : List (List Nat)) (st : AnsiState),
      (∀ L ∈ result, L.getLast? ≠ some 32 ∨ visible_width_u16 G L tab ≤ width) →
      ∀ L ∈ wrap_lines_go G width tab segs result st,
        L.getLast? ≠ some 32 ∨ visible_width_u16 G L tab ≤ width
  | [], result, st, hres => by
    simpa [wrap_lines_go] using hres
  | seg :: segs, result, st, hres => by
    simp only [wrap_lines_go]
    apply wrap_lines_go_cases G width tab segs _ _
    intro L hL
    rw [List.mem_append] at hL
    rcases hL with hL | hL
    · exact hres L hL
    · exact wrap_single_line_cases G width tab _ L hL

end TextEng

/-- Every line produced by `wrap_text_with_ansi_impl` either has no trailing
space, or is a physical line (with its SGR prefix) that already fit within
the requested width and was emitted verbatim. -/
theorem wrap_impl_trailing_cases (G : TextEng.GraphemeFn) (text : List Nat)
    (width tab : Nat) :
    ∀ L ∈ TextEng.wrap_text_with_ansi_impl G text width tab,
      L.getLast? ≠ some 32 ∨ TextEng.visible_width_u16 G L tab ≤ width := by
  intro L hL
  simp only [TextEng.wrap_text_with_ansi_impl] at hL
  split at hL
  · simp only [List.mem_singleton] at hL
    subst hL
    left
    simp
  · split at hL
    · simp only [List.mem_singleton] at hL
      subst hL
      left
      simp
    · exact TextEng.wrap_lines_go_cases G width tab (TextEng.split_nl text) [] TextEng.AnsiState.new
        (by simp) L hL

/-- C2 (counterexample): the claim as stated — trailing spaces are trimmed
from every output line — is false twice over: wrapping `"a "` at width 5
takes the fast path and yields the line `"a "` with its trailing space
intact; and wrapping `"aaa b \u0000"` (which does not fit width 2, so every
line goes through the wrapping path and its trimming) returns the wrapped
line `"b "` — the trailing NUL shields the space from `trim_end_spaces` and
the final NUL-strip then exposes it. -/
theorem claim_C2_trailing_spaces_counterexample :
    (TextEng.wrap_text_with_ansi TextEng.unit_graphemes [97, 32] 5 none = [[97, 32]] ∧
      ¬ (∀ L ∈ TextEng.wrap_text_with_ansi TextEng.unit_graphemes [97, 32] 5 none,
          L.getLast? ≠ some 32)) ∧
    ([98, 32] ∈ TextEng.wrap_text_with_ansi TextEng.unit_graphemes
        [97, 97, 97, 32, 98, 32, 0] 2 none ∧
      ¬ TextEng.visible_width_u16 TextEng.unit_graphemes [97, 97, 97, 32, 98, 32, 0]
          (TextEng.clamp_tab_width none) ≤ 2) := by decide

-- ============================================================================
-- Claim C5 (SGR invariants)
-- ============================================================================

theorem digits_foldl_ge : ∀ (ds : List Nat) (v : Nat),
    v ≤ ds.foldl (fun a d => a * 10 + (d - 48)) v
  | [], v => le_refl _
  | d :: rest, v => by
    simp only [List.foldl_cons]
    refine le_trans ?_ (digits_foldl_ge rest (v * 10 + (d - 48)))
    have : v ≤ v * 10 := Nat.le_mul_of_pos_right v (by norm_num)
    omega

namespace TextEng

theorem sgr_num_go_digits : ∀ (ds : List Nat) (v : Nat),
    (∀ d ∈ ds, 48 ≤ d ∧ d ≤ 57) →
    ds.foldl (fun a d => a * 10 + (d - 48)) v ≤ U32_MAX →
    sgr_num_go v ds = (ds.foldl (fun a d => a * 10 + (d - 48)) v, [])
  | [], v, _, _ => rfl
  | d :: rest, v, hd, hle => by
    have hdig := hd d (List.mem_cons_self _ _)
    have hle' : rest.foldl (fun a d => a * 10 + (d - 48)) (v * 10 + (d - 48)) ≤ U32_MAX := by
      simpa using hle
    have hmono := digits_foldl_ge rest (v * 10 + (d - 48))
    have hstep : v * 10 + (d - 48) ≤ U32_MAX := le_trans hmono hle'
    simp only [sgr_num_go]
    rw [if_neg (by omega), if_pos (by omega)]
    have hm1 : min (v * 10) U32_MAX = v * 10 := Nat.min_eq_left (by omega)
    rw [hm1, Nat.min_eq_left hstep]
    simpa using sgr_num_go_digits rest (v * 10 + (d - 48)) (fun x hx => hd x (by simp [hx]))
      hle'

theorem parse_sgr_num_digits (ds : List Nat) (h : digit_list ds)
    (hle : digits_val ds ≤ U32_MAX) :
    parse_sgr_num_u16 ds = (digits_val ds, []) := by
  obtain ⟨hne, hd⟩ := h
  cases ds with
  | nil => exact absurd rfl hne
  | cons d rest =>
    have hdig := hd d (List.mem_cons_self _ _)
    unfold parse_sgr_num_u16
    rw [show sgr_skip_semis (d :: rest) = d :: rest from by
      unfold sgr_skip_semis
      rw [if_neg (by omega)]]
    exact sgr_num_go_digits (d :: rest) 0 hd hle

theorem apply_sgr_go_nil : ∀ (fuel : Nat) (s : AnsiState), apply_sgr_go fuel s [] = s
  | 0, _ => rfl
  | _ + 1, _ => rfl

end TextEng

/-- C5: SGR state-machine invariants of `apply_sgr_u16`, for every state:
an empty parameter list resets the state; a parameter denoting 0 clears all
attributes and both colors; 39 clears only the foreground and 49 only the
background, leaving the attributes untouched; and any numeric parameter the
table does not recognize leaves the state unchanged. -/
theorem claim_C5_sgr_invariants :
    (∀ s : TextEng.AnsiState, TextEng.apply_sgr_u16 s [] = TextEng.AnsiState.new) ∧
    (∀ (s : TextEng.AnsiState) (ds : List Nat), digit_list ds → digits_val ds = 0 →
      TextEng.apply_sgr_u16 s ds = TextEng.AnsiState.new) ∧
    (∀ (s : TextEng.AnsiState) (ds : List Nat), digit_list ds → digits_val ds = 39 →
      TextEng.apply_sgr_u16 s ds = { s with fg := 0 }) ∧
    (∀ (s : TextEng.AnsiState) (ds : List Nat), digit_list ds → digits_val ds = 49 →
      TextEng.apply_sgr_u16 s ds = { s with bg := 0 }) ∧
    (∀ (s : TextEng.AnsiState) (ds : List Nat), digit_list ds →
      digits_val ds ≤ U32_MAX → TextEng.sgr_recognized (digits_val ds) = false →
      TextEng.apply_sgr_u16 s ds = s) := by
  have hstep : ∀ (s : TextEng.AnsiState) (d : Nat) (rest : List Nat),
      digit_list (d :: rest) → digits_val (d :: rest) ≤ U32_MAX →
      TextEng.apply_sgr_u16 s (d :: rest) =
        (TextEng.apply_sgr_go (rest.length + 1 + 1) s (d :: rest)) := by
    intro s d rest hd _
    simp [TextEng.apply_sgr_u16]
  refine ⟨fun s => rfl, ?_, ?_, ?_, ?_⟩
  · intro s ds hd hv
    obtain ⟨hne, hdig⟩ := hd
    have hp := TextEng.parse_sgr_num_digits ds ⟨hne, hdig⟩ (by rw [hv]; norm_num [U32_MAX])
    cases ds with
    | nil => exact absurd rfl hne
    | cons d rest =>
      rw [hstep s d rest ⟨hne, hdig⟩ (by rw [hv]; norm_num [U32_MAX])]
      rw [TextEng.apply_sgr_go]
      · rw [hp, hv]
        norm_num
        exact TextEng.apply_sgr_go_nil _ _
      · simp
  · intro s ds hd hv
    obtain ⟨hne, hdig⟩ := hd
    have hp := TextEng.parse_sgr_num_digits ds ⟨hne, hdig⟩ (by rw [hv]; norm_num [U32_MAX])
    cases ds with
    | nil => exact absurd rfl hne
    | cons d rest =>
      rw [hstep s d rest ⟨hne, hdig⟩ (by rw [hv]; norm_num [U32_MAX])]
      rw [TextEng.apply_sgr_go]
      · rw [hp, hv]
        norm_num
        exact TextEng.apply_sgr_go_nil _ _
      · simp
  · intro s ds hd hv
    obtain ⟨hne, hdig⟩ := hd
    have hp := TextEng.parse_sgr_num_digits ds ⟨hne, hdig⟩ (by rw [hv]; norm_num [U32_MAX])
    cases ds with
    | nil => exact absurd rfl hne
    | cons d rest =>
      rw [hstep s d rest ⟨hne, hdig⟩ (by rw [hv]; norm_num [U32_MAX])]
      rw [TextEng.apply_sgr_go]
      · rw [hp, hv]
        norm_num
        exact TextEng.apply_sgr_go_nil _ _
      · simp
  · intro s ds hd hle hrec
    obtain ⟨hne, hdig⟩ := hd
    have hp := TextEng.parse_sgr_num_digits ds ⟨hne, hdig⟩ hle
    simp only [TextEng.sgr_recognized, decide_eq_false_iff_not] at hrec
    cases ds with
    | nil => exact absurd rfl hne
    | cons d rest =>
      rw [hstep s d rest ⟨hne, hdig⟩ hle]
      rw [TextEng.apply_sgr_go]
      · rw [hp]
        dsimp only
        rw [if_neg (show ¬ digits_val (d :: rest) = 0 by omega),
            if_neg (show ¬ digits_val (d :: rest) = 1 by omega),
            if_neg (show ¬ digits_val (d :: rest) = 2 by omega),
            if_neg (show ¬ digits_val (d :: rest) = 3 by omega),
            if_neg (show ¬ digits_val (d :: rest) = 4 by omega),
            if_neg (show ¬ digits_val (d :: rest) = 5 by omega),
            if_neg (show ¬ digits_val (d :: rest) = 7 by omega),
            if_neg (show ¬ digits_val (d :: rest) = 8 by omega),
            if_neg (show ¬ digits_val (d :: rest) = 9 by omega),
            if_neg (show ¬ digits_val (d :: rest) = 21 by omega),
            if_neg (show ¬ digits_val (d :: rest) = 22 by omega),
            if_neg (show ¬ digits_val (d :: rest) = 23 by omega),
            if_neg (show ¬ digits_val (d :: rest) = 24 by omega),
            if_neg (show ¬ digits_val (d :: rest) = 25 by omega),
            if_neg (show ¬ digits_val (d :: rest) = 27 by omega),
            if_neg (show ¬ digits_val (d :: rest) = 28 by omega),
            if_neg (show ¬ digits_val (d :: rest) = 29 by omega),
            if_neg (show ¬ (30 ≤ digits_val (d :: rest) ∧ digits_val (d :: rest) ≤ 37) by omega),
            if_neg (show ¬ digits_val (d :: rest) = 39 by omega),
            if_neg (show ¬ (40 ≤ digits_val (d :: rest) ∧ digits_val (d :: rest) ≤ 47) by omega),
            if_neg (show ¬ digits_val (d :: rest) = 49 by omega),
            if_neg (show ¬ (90 ≤ digits_val (d :: rest) ∧ digits_val (d :: rest) ≤ 97) by omega),
            if_neg (show ¬ (100 ≤ digits_val (d :: rest) ∧ digits_val (d :: rest) ≤ 107) by omega),
            if_neg (show ¬ (digits_val (d :: rest) = 38 ∨ digits_val (d :: rest) = 48) by omega)]
        exact TextEng.apply_sgr_go_nil _ _
      · simp

/-- Witness for C5 at concrete parameter lists: `"0"`, `"39"`, `"49"`
and the unrecognized code `"10"` on a concrete non-default state. -/
theorem claim_C5_sgr_invariants_witness :
    TextEng.apply_sgr_u16 ⟨5, 3, 7⟩ [48] = TextEng.AnsiState.new ∧
    TextEng.apply_sgr_u16 ⟨5, 3, 7⟩ [51, 57] = ⟨5, 0, 7⟩ ∧
    TextEng.apply_sgr_u16 ⟨5, 3, 7⟩ [52, 57] = ⟨5, 3, 0⟩ ∧
    TextEng.apply_sgr_u16 ⟨5, 3, 7⟩ [49, 48] = ⟨5, 3, 7⟩ :=
  ⟨claim_C5_sgr_invariants.2.1 ⟨5, 3, 7⟩ [48] (by decide) (by decide),
   claim_C5_sgr_invariants.2.2.1 ⟨5, 3, 7⟩ [51, 57] (by decide) (by decide),
   claim_C5_sgr_invariants.2.2.2.1 ⟨5, 3, 7⟩ [52, 57] (by decide) (by decide),
   claim_C5_sgr_invariants.2.2.2.2 ⟨5, 3, 7⟩ [49, 48] (by decide) (by decide) (by decide)⟩

-- ============================================================================
-- Claim C6 (sanitize_text idempotence)
-- ============================================================================

namespace TextEng

theorem san_ok_nil : san_ok [] = true := by rw [san_ok.eq_def]

theorem san_ok_cons (u : Nat) (rest : List Nat) :
    san_ok (u :: rest) =
      if 55296 ≤ u ∧ u ≤ 56319 then
        match rest with
        | lo :: rest' => if 56320 ≤ lo ∧ lo ≤ 57343 then san_ok rest' else false
        | [] => false
      else solo_keep u && san_ok rest := by
  rw [san_ok.eq_def]

/-- The sanitizer's kept output is itself sanitized. -/
theorem san_go_ok : ∀ (fuel : Nat) (d : List Nat), d.length < fuel →
    san_ok (san_go fuel d).1 = true
  | 0, _, h => by omega
  | _ + 1, [], _ => by
    simp only [san_go]
    exact san_ok_nil
  | fuel + 1, u :: rest, h => by
    have hlen : rest.length < fuel := by
      simp only [List.length_cons] at h
      omega
    simp only [san_go]
    split
    · rename_i hu
      rcases heq : san_go fuel rest with ⟨out, ch⟩
      have hok := san_go_ok fuel rest hlen
      rw [heq] at hok
      simp only at hok
      dsimp only
      rw [san_ok_cons, if_neg (by omega), Bool.and_eq_true]
      refine ⟨?_, hok⟩
      rw [solo_keep, decide_eq_true_eq]
      omega
    · rename_i hu
      split
      · rename_i L heq
        have hesc : ansi_seq_len_u16 (u :: rest) = some L := by
          by_cases hue : u = ESC
          · rwa [if_pos hue] at heq
          · rw [if_neg hue] at heq
            exact absurd heq (by simp)
        have hL := ansi_seq_len_u16_bound _ _ hesc
        have hdlen : ((u :: rest).drop L).length < fuel := by
          rw [List.length_drop]
          simp only [List.length_cons]
          omega
        rcases heq2 : san_go fuel ((u :: rest).drop L) with ⟨out, ch⟩
        have hok := san_go_ok fuel ((u :: rest).drop L) hdlen
        rw [heq2] at hok
        simpa using hok
      · rename_i heqn
        split
        · rcases heq2 : san_go fuel rest with ⟨out, ch⟩
          have hok := san_go_ok fuel rest hlen
          rw [heq2] at hok
          simpa using hok
        · split
          · rcases heq2 : san_go fuel rest with ⟨out, ch⟩
            have hok := san_go_ok fuel rest hlen
            rw [heq2] at hok
            simpa using hok
          · split
            · rename_i h13 hctl hhi
              cases rest with
              | nil => exact san_ok_nil
              | cons lo rest' =>
                dsimp only
                split
                · rename_i hlo
                  have hlen' : rest'.length < fuel := by
                    simp only [List.length_cons] at hlen
                    omega
                  rcases heq2 : san_go fuel rest' with ⟨out, ch⟩
                  have hok := san_go_ok fuel rest' hlen'
                  rw [heq2] at hok
                  simp only at hok
                  dsimp only
                  rw [san_ok_cons, if_pos (by omega)]
                  dsimp only
                  rw [if_pos (by omega)]
                  exact hok
                · rcases heq2 : san_go fuel (lo :: rest') with ⟨out, ch⟩
                  have hok := san_go_ok fuel (lo :: rest') hlen
                  rw [heq2] at hok
                  simpa using hok
            · split
              · rcases heq2 : san_go fuel rest with ⟨out, ch⟩
                have hok := san_go_ok fuel rest hlen
                rw [heq2] at hok
                simpa using hok
              · rename_i h13 hctl hhi hlo
                rcases heq2 : san_go fuel rest with ⟨out, ch⟩
                have hok := san_go_ok fuel rest hlen
                rw [heq2] at hok
                simp only at hok
                dsimp only
                rw [san_ok_cons, if_neg (by omega), Bool.and_eq_true]
                refine ⟨?_, hok⟩
                rw [solo_keep, decide_eq_true_eq]
                omega

end TextEng

namespace TextEng

/-- Sanitized input is a fixpoint of the sanitizer scan (nothing removed). -/
theorem san_go_fix : ∀ (fuel : Nat) (d : List Nat), d.length < fuel → san_ok d = true →
    san_go fuel d = (d, false)
  | 0, _, h, _ => by omega
  | _ + 1, [], _, _ => by simp [san_go]
  | fuel + 1, u :: rest, h, hok => by
    have hlen : rest.length < fuel := by
      simp only [List.length_cons] at h
      omega
    rw [san_ok_cons] at hok
    by_cases hhi : 55296 ≤ u ∧ u ≤ 56319
    · rw [if_pos hhi] at hok
      cases rest with
      | nil => simp at hok
      | cons lo rest' =>
        have hok' : (if 56320 ≤ lo ∧ lo ≤ 57343 then san_ok rest' else false) = true := hok
        by_cases hlo : 56320 ≤ lo ∧ lo ≤ 57343
        · rw [if_pos hlo] at hok'
          have hlen' : rest'.length < fuel := by
            simp only [List.length_cons] at hlen
            omega
          simp only [san_go]
          rw [if_neg (by omega)]
          rw [if_neg (show ¬ u = ESC by simp only [ESC]; omega)]
          dsimp only
          rw [if_neg (by omega), if_neg (by omega), if_pos hhi]
          rw [if_pos hlo]
          rw [san_go_fix fuel rest' hlen' hok']
        · rw [if_neg hlo] at hok'
          simp at hok'
    · rw [if_neg hhi, Bool.and_eq_true] at hok
      obtain ⟨hsk, hrest⟩ := hok
      rw [solo_keep, decide_eq_true_eq] at hsk
      simp only [san_go]
      by_cases h910 : u = 9 ∨ u = 10
      · rw [if_pos h910]
        rw [san_go_fix fuel rest hlen hrest]
      · rw [if_neg h910]
        rw [if_neg (show ¬ u = ESC by simp only [ESC]; omega)]
        dsimp only
        rw [if_neg (by omega), if_neg (by omega), if_neg hhi, if_neg (by omega)]
        rw [san_go_fix fuel rest hlen hrest]

/-- When the scan reports nothing changed, the kept units are the input. -/
theorem san_go_false : ∀ (fuel : Nat) (d : List Nat), d.length < fuel →
    (san_go fuel d).2 = false → (san_go fuel d).1 = d
  | 0, _, h, _ => by omega
  | _ + 1, [], _, _ => by simp [san_go]
  | fuel + 1, u :: rest, h, hch => by
    have hlen : rest.length < fuel := by
      simp only [List.length_cons] at h
      omega
    simp only [san_go] at hch ⊢
    by_cases h910 : u = 9 ∨ u = 10
    · rw [if_pos h910] at hch ⊢
      simp only at hch ⊢
      rw [san_go_false fuel rest hlen hch]
    · rw [if_neg h910] at hch ⊢
      rcases hseq : (if u = ESC then ansi_seq_len_u16 (u :: rest) else none) with _ | L
      · rw [hseq] at hch
        dsimp only at hch ⊢
        by_cases h13 : u = 13
        · rw [if_pos h13] at hch
          simp at hch
        · rw [if_neg h13] at hch ⊢
          by_cases hctl : u ≤ 31 ∨ u = 127 ∨ (128 ≤ u ∧ u ≤ 159)
          · rw [if_pos hctl] at hch
            simp at hch
          · rw [if_neg hctl] at hch ⊢
            by_cases hhi : 55296 ≤ u ∧ u ≤ 56319
            · rw [if_pos hhi] at hch ⊢
              cases rest with
              | nil => simp at hch
              | cons lo rest' =>
                dsimp only at hch ⊢
                by_cases hlo : 56320 ≤ lo ∧ lo ≤ 57343
                · rw [if_pos hlo] at hch ⊢
                  simp only at hch ⊢
                  have hlen' : rest'.length < fuel := by
                    simp only [List.length_cons] at hlen
                    omega
                  rw [san_go_false fuel rest' hlen' hch]
                · rw [if_neg hlo] at hch
                  simp at hch
            · rw [if_neg hhi] at hch ⊢
              by_cases hlo : 56320 ≤ u ∧ u ≤ 57343
              · rw [if_pos hlo] at hch
                simp at hch
              · rw [if_neg hlo] at hch ⊢
                simp only at hch ⊢
                rw [san_go_false fuel rest hlen hch]
      · rw [hseq] at hch
        dsimp only at hch
        simp at hch

/-- Sanitized lists contain no NUL units. -/
theorem san_ok_no_nul : ∀ (d : List Nat), san_ok d = true → ∀ u ∈ d, u ≠ 0
  | [], _, u, hu => by simp at hu
  | v :: rest, hok, u, hu => by
    rw [san_ok_cons] at hok
    by_cases hhi : 55296 ≤ v ∧ v ≤ 56319
    · rw [if_pos hhi] at hok
      cases rest with
      | nil => simp at hok
      | cons lo rest' =>
        have hok' : (if 56320 ≤ lo ∧ lo ≤ 57343 then san_ok rest' else false) = true := hok
        by_cases hlo : 56320 ≤ lo ∧ lo ≤ 57343
        · rw [if_pos hlo] at hok'
          rcases hu with _ | ⟨_, hu⟩
          · omega
          · rcases hu with _ | ⟨_, hu⟩
            · omega
            · exact san_ok_no_nul rest' hok' u hu
        · rw [if_neg hlo] at hok'
          simp at hok'
    · rw [if_neg hhi, Bool.and_eq_true] at hok
      obtain ⟨hsk, hrest⟩ := hok
      rw [solo_keep, decide_eq_true_eq] at hsk
      rcases hu with _ | ⟨_, hu⟩
      · omega
      · exact san_ok_no_nul rest hrest u hu

/-- NUL-stripping is the identity on NUL-free lists. -/
theorem build_utf16_string_no_nul (l : List Nat) (h : ∀ u ∈ l, u ≠ 0) :
    build_utf16_string l = l := by
  unfold build_utf16_string
  cases hr : l.reverse with
  | nil =>
    have hl : l = [] := by simpa using congrArg List.reverse hr
    simp [hl]
  | cons a t =>
    have ha : a ∈ l := by
      have : a ∈ l.reverse := by
        rw [hr]
        exact List.mem_cons_self _ _
      exact List.mem_reverse.mp this
    rw [List.dropWhile_cons]
    rw [if_neg (by simp [h a ha])]
    rw [← hr, List.reverse_reverse]

/-- Sanitized input is returned unchanged (zero-copy branch). -/
theorem sanitize_text_of_san_ok (d : List Nat) (hok : san_ok d = true) :
    sanitize_text d = d := by
  unfold sanitize_text sanitize_text_e
  rw [san_go_fix (d.length + 1) d (by omega) hok]
  rfl

/-- The output of `sanitize_text` is sanitized. -/
theorem san_ok_sanitize_text (t : List Nat) : san_ok (sanitize_text t) = true := by
  unfold sanitize_text sanitize_text_e
  rcases heq : san_go (t.length + 1) t with ⟨out, ch⟩
  have hok := san_go_ok (t.length + 1) t (by omega)
  rw [heq] at hok
  simp only at hok
  cases ch
  · dsimp only
    have hfix := san_go_false (t.length + 1) t (by omega) (by rw [heq])
    rw [heq] at hfix
    simp only at hfix
    rw [← hfix]
    exact hok
  · dsimp only
    rw [build_utf16_string_no_nul out (san_ok_no_nul out hok)]
    exact hok

end TextEng

/-- C6: `sanitize_text` is idempotent — its output contains nothing
(recognized escape sequences, stray controls, CR, DEL, C1 controls, lone
surrogates) that a second sanitization pass would remove, so sanitizing
twice equals sanitizing once. -/
theorem claim_C6_sanitize_idempotent (t : List Nat) :
    TextEng.sanitize_text (TextEng.sanitize_text t) = TextEng.sanitize_text t :=
  TextEng.sanitize_text_of_san_ok _ (TextEng.san_ok_sanitize_text t)

-- ============================================================================
-- Claim C7 (malformed key-sequence parsing, modifier decoding)
-- ============================================================================

namespace Keys

theorem digit_run_go_succ (bytes : List Nat) (e fuel idx : Nat) :
    digit_run_go bytes e (fuel + 1) idx =
      if idx < e ∧ is_digit (bytes.getD idx 0) = true then
        bytes.getD idx 0 :: digit_run_go bytes e fuel (idx + 1)
      else [] := rfl

theorem digit_run_cons (bytes : List Nat) (idx e : Nat)
    (hg : idx < e ∧ is_digit (bytes.getD idx 0) = true) :
    digit_run bytes idx e = bytes.getD idx 0 :: digit_run bytes (idx + 1) e := by
  unfold digit_run
  rw [show e - idx + 1 = (e - idx - 1 + 1) + 1 from by omega, digit_run_go_succ, if_pos hg,
    show e - (idx + 1) + 1 = e - idx - 1 + 1 from by omega]

theorem digit_run_eq_nil (bytes : List Nat) (idx e : Nat)
    (hg : ¬ (idx < e ∧ is_digit (bytes.getD idx 0) = true)) :
    digit_run bytes idx e = [] := by
  unfold digit_run
  rw [digit_run_go_succ, if_neg hg]

theorem digit_run_go_length : ∀ (bytes : List Nat) (e fuel idx : Nat),
    (digit_run_go bytes e fuel idx).length ≤ e - idx
  | _, _, 0, _ => Nat.zero_le _
  | bytes, e, fuel + 1, idx => by
    rw [digit_run_go_succ]
    by_cases hg : idx < e ∧ is_digit (bytes.getD idx 0) = true
    · rw [if_pos hg]
      simp only [List.length_cons]
      have := digit_run_go_length bytes e fuel (idx + 1)
      omega
    · rw [if_neg hg]
      simp

theorem digit_run_length (bytes : List Nat) (idx e : Nat) :
    (digit_run bytes idx e).length ≤ e - idx :=
  digit_run_go_length bytes e _ idx

theorem checked_step_eq (val d : Nat) :
    checked_step val d =
      if val * 10 + (d - 48) ≤ U32_MAX then some (val * 10 + (d - 48)) else none := by
  simp only [checked_step]
  by_cases h1 : U32_MAX < val * 10
  · rw [if_pos h1, if_neg (by omega)]
  · rw [if_neg h1]
    by_cases h2 : U32_MAX < val * 10 + (d - 48)
    · rw [if_pos h2, if_neg (by omega)]
    · rw [if_neg h2, if_pos (by omega)]

theorem parse_digits_go_spec : ∀ (fuel : Nat) (bytes : List Nat) (e val idx : Nat),
    (digit_run bytes idx e).length < fuel → val ≤ U32_MAX →
    parse_digits_go bytes e fuel val idx =
      (if (digit_run bytes idx e).foldl (fun a d => a * 10 + (d - 48)) val ≤ U32_MAX then
        some ((digit_run bytes idx e).foldl (fun a d => a * 10 + (d - 48)) val,
          idx + (digit_run bytes idx e).length)
      else none)
  | 0, _, _, _, _, h, _ => absurd h (by omega)
  | fuel + 1, bytes, e, val, idx, h, hval => by
    by_cases hg : idx < e ∧ is_digit (bytes.getD idx 0) = true
    · rw [digit_run_cons bytes idx e hg] at h ⊢
      simp only [parse_digits_go]
      rw [if_pos hg, checked_step_eq]
      by_cases hstep : val * 10 + (bytes.getD idx 0 - 48) ≤ U32_MAX
      · rw [if_pos hstep]
        dsimp only
        have hlen : (digit_run bytes (idx + 1) e).length < fuel := by
          simp only [List.length_cons] at h
          omega
        rw [parse_digits_go_spec fuel bytes e (val * 10 + (bytes.getD idx 0 - 48)) (idx + 1)
          hlen hstep]
        simp only [List.foldl_cons, List.length_cons]
        rw [show idx + ((digit_run bytes (idx + 1) e).length + 1) =
          idx + 1 + (digit_run bytes (idx + 1) e).length from by omega]
      · rw [if_neg hstep]
        dsimp only
        have hge := digits_foldl_ge (digit_run bytes (idx + 1) e)
          (val * 10 + (bytes.getD idx 0 - 48))
        simp only [List.foldl_cons]
        rw [if_neg (by omega)]
    · rw [digit_run_eq_nil bytes idx e hg]
      simp only [parse_digits_go]
      rw [if_neg hg]
      simp only [List.foldl_nil, List.length_nil, Nat.add_zero]
      rw [if_pos hval]

theorem parse_digits_spec (bytes : List Nat) (idx e : Nat) :
    parse_digits bytes idx e =
      (if digit_run bytes idx e = [] then none
       else if digits_val (digit_run bytes idx e) ≤ U32_MAX then
         some (digits_val (digit_run bytes idx e), idx + (digit_run bytes idx e).length)
       else none) := by
  unfold parse_digits
  by_cases hg : idx < e ∧ is_digit (bytes.getD idx 0) = true
  · rw [if_pos hg]
    have hne : digit_run bytes idx e ≠ [] := by
      rw [digit_run_cons bytes idx e hg]
      simp
    rw [if_neg hne]
    have hlen : (digit_run bytes idx e).length < e - idx + 1 := by
      have := digit_run_length bytes idx e
      omega
    rw [parse_digits_go_spec (e - idx + 1) bytes e 0 idx hlen (by norm_num [U32_MAX])]
    rfl
  · rw [if_neg hg, digit_run_eq_nil bytes idx e hg, if_pos rfl]

theorem parse_modify_other_keys_mod (bytes : List Nat) (m : Nat) (k : Int)
    (h : parse_modify_other_keys bytes = some (m, k)) :
    ∃ i, parse_digits bytes 5 (mok_end bytes) = some (m + 1, i) := by
  unfold parse_modify_other_keys at h
  split at h
  · exact absurd h (by simp)
  · rw [show (if bytes.getLast? = some 126 then bytes.length - 1 else bytes.length) =
      mok_end bytes from rfl] at h
    dsimp only at h
    split at h
    · exact absurd h (by simp)
    · rw [Option.bind_eq_bind', Option.bind_eq_some'] at h
      obtain ⟨⟨mv, idx⟩, h1, h2⟩ := h
      dsimp only at h2
      split at h2
      · rw [Option.bind_eq_bind', Option.bind_eq_some'] at h2
        obtain ⟨⟨kc, idx2⟩, h3, h4⟩ := h2
        dsimp only at h4
        split at h4
        · rename_i hguard
          rw [Option.bind_eq_bind', Option.bind_eq_some'] at h4
          obtain ⟨kcode, h5, h6⟩ := h4
          simp only [Option.pure_def, Option.some.injEq, Prod.mk.injEq] at h6
          obtain ⟨hm, hk⟩ := h6
          refine ⟨idx, ?_⟩
          rw [h1, show mv = m + 1 from by omega]
        · exact absurd h4 (by simp)
      · exact absurd h2 (by simp)

theorem csi_u_mods_val (bytes : List Nat) (e idx mv : Nat) (ev : Option Nat) (idx2 : Nat)
    (h : csi_u_mods bytes e idx = some (mv, ev, idx2)) :
    mv = 1 ∨ ∃ i j, parse_digits bytes i e = some (mv, j) := by
  unfold csi_u_mods at h
  split at h
  · rw [Option.bind_eq_some'] at h
    obtain ⟨mp, ha, hb⟩ := h
    rw [Option.bind_eq_some'] at hb
    obtain ⟨ep, hc, hd⟩ := hb
    simp only [Option.some.injEq, Prod.mk.injEq] at hd
    obtain ⟨hmv, _⟩ := hd
    split at ha
    · right
      exact ⟨idx + 1, mp.2, by rw [← hmv, ha]⟩
    · simp only [Option.some.injEq] at ha
      left
      rw [← hmv, ← ha]
  · simp only [Option.some.injEq, Prod.mk.injEq] at h
    exact Or.inl h.1.symm

theorem parse_csi_u_mod (bytes : List Nat) (seq : ParsedKittySequence)
    (h : parse_csi_u bytes = some seq) :
    seq.modifier = 0 ∨
      ∃ i j, parse_digits bytes i (bytes.length - 1) = some (seq.modifier + 1, j) := by
  unfold parse_csi_u at h
  rw [Option.bind_eq_some'] at h
  obtain ⟨cp, hp1, h⟩ := h
  rw [Option.bind_eq_some'] at h
  obtain ⟨cpi, hp2, h⟩ := h
  rw [Option.bind_eq_some'] at h
  obtain ⟨alt, hp3, h⟩ := h
  rw [Option.bind_eq_some'] at h
  obtain ⟨mm, h3, h⟩ := h
  rw [Option.bind_eq_some'] at h
  obtain ⟨tp, hp4, h⟩ := h
  split at h
  · rename_i hguard
    simp only [Option.some.injEq] at h
    have hmod : seq.modifier = mm.1 - 1 := by
      rw [← h]
    have hmm : mm.1 = seq.modifier + 1 := by omega
    rcases csi_u_mods_val bytes (bytes.length - 1) alt.2.2 mm.1 mm.2.1 mm.2.2
        (by rw [← h3]) with h1 | ⟨i, j, hij⟩
    · left
      omega
    · right
      exact ⟨i, j, by rw [← hmm]; exact hij⟩
  · exact absurd h (by simp)

end Keys

/-- C7: malformed or truncated Kitty / modifyOtherKeys sequences fail cleanly
and successful parses decode the wire modifier as `mods + 1`.  Digit parsing
fails (returns `none`) when no digit is present at the start position and when
the scanned decimal run overflows `u32`; a truncated CSI-u sequence missing
its terminator, a zero wire modifier, and an overflowing modifier field each
make the whole parse fail; and every successful `parse_modify_other_keys` or
`parse_csi_u` parse reports a modifier that is exactly the (nonzero) wire
value read by `parse_digits`, minus one (a CSI-u sequence with no modifier
field defaults to wire value 1, reported as 0). -/
theorem claim_C7_malformed_parse_and_modifier :
    (∀ (bytes : List Nat) (idx e : Nat),
        ¬ (idx < e ∧ Keys.is_digit (bytes.getD idx 0) = true) →
        Keys.parse_digits bytes idx e = none) ∧
    (∀ (bytes : List Nat) (idx e : Nat),
        U32_MAX < digits_val (Keys.digit_run bytes idx e) →
        Keys.parse_digits bytes idx e = none) ∧
    Keys.parse_kitty_sequence [27, 91, 57, 55, 59, 53] = none ∧
    Keys.parse_csi_u [27, 91, 57, 55, 59, 48, 117] = none ∧
    Keys.parse_csi_u [27, 91, 52, 50, 57, 52, 57, 54, 55, 50, 57, 54, 117] = none ∧
    Keys.parse_modify_other_keys [27, 91, 50, 55, 59, 48, 59, 57, 126] = none ∧
    Keys.parse_modify_other_keys
      [27, 91, 50, 55, 59, 52, 50, 57, 52, 57, 54, 55, 50, 57, 54, 59, 57, 126] = none ∧
    Keys.parse_modify_other_keys [27, 91, 50, 55, 59, 53, 59] = none ∧
    (∀ (bytes : List Nat) (m : Nat) (k : Int),
        Keys.parse_modify_other_keys bytes = some (m, k) →
        ∃ i, Keys.parse_digits bytes 5 (Keys.mok_end bytes) = some (m + 1, i)) ∧
    (∀ (bytes : List Nat) (seq : Keys.ParsedKittySequence),
        Keys.parse_csi_u bytes = some seq →
        seq.modifier = 0 ∨
          ∃ i j, Keys.parse_digits bytes i (bytes.length - 1) = some (seq.modifier + 1, j)) := by
  refine ⟨?_, ?_, by decide, by decide, by decide, by decide, by decide, by decide,
    Keys.parse_modify_other_keys_mod, Keys.parse_csi_u_mod⟩
  · intro bytes idx e hg
    unfold Keys.parse_digits
    rw [if_neg hg]
  · intro bytes idx e hover
    rw [Keys.parse_digits_spec]
    split
    · rfl
    · rw [if_neg (by omega)]

/-- Instantiation of C7 at concrete inputs: the ten-digit run `4294967296`
overflows and fails, a successful modifyOtherKeys parse of `ESC[27;5;9~`
reads wire modifier 5 and reports 4, and a successful CSI-u parse of
`ESC[97;5u` reports modifier 4 read from wire value 5. -/
theorem claim_C7_malformed_parse_and_modifier_witness :
    Keys.parse_digits [] 0 0 = none ∧
    Keys.parse_digits [52, 50, 57, 52, 57, 54, 55, 50, 57, 54] 0 10 = none ∧
    (∃ i, Keys.parse_digits [27, 91, 50, 55, 59, 53, 59, 57, 126] 5
        (Keys.mok_end [27, 91, 50, 55, 59, 53, 59, 57, 126]) = some (4 + 1, i)) ∧
    ((4 : Nat) = 0 ∨ ∃ i j, Keys.parse_digits [27, 91, 57, 55, 59, 53, 117] i
        (([27, 91, 57, 55, 59, 53, 117] : List Nat).length - 1) = some (4 + 1, j)) :=
  ⟨claim_C7_malformed_parse_and_modifier.1 [] 0 0 (by decide),
   claim_C7_malformed_parse_and_modifier.2.1 [52, 50, 57, 52, 57, 54, 55, 50, 57, 54] 0 10
     (by decide),
   claim_C7_malformed_parse_and_modifier.2.2.2.2.2.2.2.2.1
     [27, 91, 50, 55, 59, 53, 59, 57, 126] 4 9 (by decide),
   claim_C7_malformed_parse_and_modifier.2.2.2.2.2.2.2.2.2
     [27, 91, 57, 55, 59, 53, 117] ⟨97, none, none, none, 4, none⟩ (by decide)⟩

-- ============================================================================
-- Claim C10 (trailing NUL stripping on all text-engine outputs)
-- ============================================================================

namespace TextEng

theorem truncate_allocated_getLast (G : GraphemeFn) (text : List Nat) (max_width : Nat)
    (ellipsis_kind : Nat) (pad : Bool) (tab_width : Option Nat) (out : List Nat)
    (h : truncate_to_width_e G text max_width ellipsis_kind pad tab_width =
      JsOut.allocated out) :
    out.getLast? ≠ some 0 := by
  unfold truncate_to_width_e at h
  dsimp only at h
  split at h
  · split at h
    · exact absurd h (by simp)
    · split at h
      · injection h with h
        rw [← h]
        exact build_utf16_string_getLast _
      · exact absurd h (by simp)
  · generalize (if ellipsis_kind = 0 then (ELLIPSIS_UNICODE, 1)
        else if ellipsis_kind = 1 then (ELLIPSIS_ASCII, 3)
        else if ellipsis_kind = 2 then (([] : List Nat), 0)
        else (ELLIPSIS_UNICODE, 1)) = E at h
    split at h <;> (injection h with h; rw [← h]; exact build_utf16_string_getLast _)

theorem sanitize_text_getLast (t : List Nat) : (sanitize_text t).getLast? ≠ some 0 := by
  unfold sanitize_text sanitize_text_e
  rcases heq : san_go (t.length + 1) t with ⟨out, ch⟩
  have hok := san_go_ok (t.length + 1) t (by omega)
  rw [heq] at hok
  simp only at hok
  cases ch
  · dsimp only
    have hfix := san_go_false (t.length + 1) t (by omega) (by rw [heq])
    rw [heq] at hfix
    simp only at hfix
    rw [hfix] at hok
    intro hcon
    obtain ⟨hne, h0⟩ := List.mem_getLast?_eq_getLast hcon
    exact san_ok_no_nul t hok 0 (by rw [h0]; exact List.getLast_mem hne) rfl
  · dsimp only
    exact build_utf16_string_getLast out

end TextEng

/-- C10: every freshly allocated text output of the engine has its trailing
U+0000 code units stripped by `build_utf16_string` before being returned:
every line of `wrap_text_with_ansi`, every allocated result of
`truncate_to_width`, the string parts of `slice_with_width` and
`extract_segments`, and the result of `sanitize_text` never end in a NUL
unit; in particular wrapping `"a\u0000"` at width 5 yields the single
shorter line `"a"`. -/
theorem claim_C10_trailing_nul_stripped :
    (∀ (G : TextEng.GraphemeFn) (text : List Nat) (width : Nat) (tw : Option Nat),
        ∀ L ∈ TextEng.wrap_text_with_ansi G text width tw, L.getLast? ≠ some 0) ∧
    (∀ (G : TextEng.GraphemeFn) (text : List Nat) (max_width ellipsis_kind : Nat)
        (pad : Bool) (tw : Option Nat) (out : List Nat),
        TextEng.truncate_to_width_e G text max_width ellipsis_kind pad tw =
          TextEng.JsOut.allocated out →
        out.getLast? ≠ some 0) ∧
    (∀ (G : TextEng.GraphemeFn) (line : List Nat) (start_col len : Nat) (strict : Bool)
        (tw : Option Nat),
        (TextEng.slice_with_width G line start_col len strict tw).1.getLast? ≠ some 0) ∧
    (∀ (G : TextEng.GraphemeFn) (line : List Nat) (before_end after_start after_len : Nat)
        (strict_after : Bool) (tw : Option Nat),
        (TextEng.extract_segments G line before_end after_start after_len strict_after
          tw).1.getLast? ≠ some 0 ∧
        (TextEng.extract_segments G line before_end after_start after_len strict_after
          tw).2.2.1.getLast? ≠ some 0) ∧
    (∀ t : List Nat, (TextEng.sanitize_text t).getLast? ≠ some 0) ∧
    TextEng.wrap_text_with_ansi TextEng.unit_graphemes [97, 0] 5 none = [[97]] := by
  refine ⟨?_, TextEng.truncate_allocated_getLast, ?_, ?_, TextEng.sanitize_text_getLast,
    by decide⟩
  · intro G text width tw L hL
    unfold TextEng.wrap_text_with_ansi at hL
    rw [List.mem_map] at hL
    obtain ⟨L', _, rfl⟩ := hL
    exact TextEng.build_utf16_string_getLast _
  · intro G line start_col len strict tw
    exact TextEng.build_utf16_string_getLast _
  · intro G line before_end after_start after_len strict_after tw
    exact ⟨TextEng.build_utf16_string_getLast _, TextEng.build_utf16_string_getLast _⟩

/-- Instantiation of C10 at concrete inputs: the wrapped line built from
`"a\u0000"` and a padded allocated truncation both end in a non-NUL unit. -/
theorem claim_C10_trailing_nul_stripped_witness :
    ([97] : List Nat).getLast? ≠ some 0 ∧ ([97, 32, 32] : List Nat).getLast? ≠ some 0 :=
  ⟨claim_C10_trailing_nul_stripped.1 TextEng.unit_graphemes [97, 0] 5 none [97] (by decide),
   claim_C10_trailing_nul_stripped.2.1 TextEng.unit_graphemes [97] 3 1 true none [97, 32, 32]
     (by decide)⟩

-- ============================================================================
-- Claim C2 (trailing spaces on wrapped lines, public wrapper)
-- ============================================================================

namespace TextEng

theorem no_nul_nil : no_nul [] := fun u hu => absurd hu (List.not_mem_nil u)

theorem no_nul_append {a b : List Nat} (ha : no_nul a) (hb : no_nul b) : no_nul (a ++ b) :=
  fun u hu => (List.mem_append.mp hu).elim (ha u) (hb u)

theorem no_nul_mono {a b : List Nat} (h : ∀ u ∈ a, u ∈ b) (hb : no_nul b) : no_nul a :=
  fun u hu => hb u (h u hu)

theorem dec_go_no_nul : ∀ (fuel n : Nat) (acc : List Nat), no_nul acc →
    no_nul (dec_go fuel n acc)
  | 0, _, _, h => h
  | fuel + 1, n, acc, h => by
    cases n with
    | zero => exact h
    | succ m =>
      refine dec_go_no_nul fuel ((m + 1) / 10) ((48 + (m + 1) % 10) :: acc) ?_
      intro u hu
      rcases List.mem_cons.mp hu with rfl | hu
      · omega
      · exact h u hu

theorem write_u32_no_nul (v : Nat) : no_nul (write_u32_u16 v) := by
  unfold write_u32_u16
  split
  · intro u hu
    simp at hu
    omega
  · exact dec_go_no_nul v v [] no_nul_nil

theorem write_color_no_nul (c b : Nat) (f : Bool) : no_nul (write_color_u16 c b f).1 := by
  intro u hu h0
  subst h0
  have hw : ∀ v, ¬ (0 : Nat) ∈ write_u32_u16 v := fun v h => write_u32_no_nul v 0 h rfl
  unfold write_color_u16 at hu
  cases f <;> split_ifs at hu <;> simp_all

theorem join_codes_no_nul : ∀ (f : Bool) (cs : List Nat), no_nul (join_codes f cs)
  | _, [] => by
    intro u hu
    simp [join_codes] at hu
  | f, c :: rest => by
    intro u hu h0
    subst h0
    unfold join_codes at hu
    rcases List.mem_append.mp hu with hu | hu
    · rcases List.mem_append.mp hu with hu | hu
      · split at hu
        · simp at hu
        · simp at hu
      · exact write_u32_no_nul c 0 hu rfl
    · exact join_codes_no_nul false rest 0 hu rfl

theorem write_restore_no_nul (s : AnsiState) : no_nul (write_restore_u16 s) := by
  intro u hu h0
  subst h0
  unfold write_restore_u16 at hu
  split at hu
  · simp at hu
  · dsimp only at hu
    simp only [List.append_assoc, List.mem_append, List.mem_cons, List.not_mem_nil,
      or_false, ESC] at hu
    rcases hu with (hu | hu) | hu | hu | hu | hu
    · omega
    · omega
    · exact join_codes_no_nul true _ 0 hu rfl
    · exact write_color_no_nul _ 38 _ 0 hu rfl
    · exact write_color_no_nul _ 48 _ 0 hu rfl
    · omega

theorem write_active_codes_no_nul (s : AnsiState) : no_nul (write_active_codes s) := by
  unfold write_active_codes
  split
  · exact no_nul_nil
  · exact write_restore_no_nul s

theorem write_line_end_reset_no_nul (s : AnsiState) : no_nul (write_line_end_reset s) := by
  intro u hu
  unfold write_line_end_reset at hu
  split at hu
  · simp only [ESC, List.mem_cons, List.not_mem_nil, or_false] at hu
    omega
  · simp at hu

theorem trim_end_spaces_subset (l : List Nat) : ∀ u ∈ trim_end_spaces l, u ∈ l := by
  intro u hu
  unfold trim_end_spaces at hu
  rw [List.mem_reverse] at hu
  exact List.mem_reverse.mp ((List.dropWhile_sublist _).subset hu)

theorem split_nl_mem : ∀ (t : List Nat), ∀ seg ∈ split_nl t, ∀ u ∈ seg, u ∈ t
  | [] => by
    intro seg hseg u hu
    simp only [split_nl, List.mem_singleton] at hseg
    subst hseg
    simp at hu
  | v :: rest => by
    intro seg hseg u hu
    unfold split_nl at hseg
    split at hseg
    · rcases List.mem_cons.mp hseg with rfl | hseg
      · simp at hu
      · exact List.mem_cons_of_mem _ (split_nl_mem rest seg hseg u hu)
    · rcases hrec : split_nl rest with _ | ⟨s0, segs⟩
      · rw [hrec] at hseg
        simp only [List.mem_singleton] at hseg
        subst hseg
        simp only [List.mem_singleton] at hu
        rw [hu]
        exact List.mem_cons_self _ _
      · rw [hrec] at hseg
        rcases List.mem_cons.mp hseg with rfl | hseg
        · rcases List.mem_cons.mp hu with rfl | hu
          · exact List.mem_cons_self _ _
          · exact List.mem_cons_of_mem _
              (split_nl_mem rest s0 (by rw [hrec]; exact List.mem_cons_self _ _) u hu)
        · exact List.mem_cons_of_mem _
            (split_nl_mem rest seg (by rw [hrec]; exact List.mem_cons_of_mem _ hseg) u hu)

theorem split_tokens_go_no_nul :
    ∀ (fuel : Nat) (tokens : List (List Nat)) (current pending : List Nat) (ws : Bool)
      (input : List Nat),
      (∀ t ∈ tokens, no_nul t) → no_nul current → no_nul pending → no_nul input →
      ∀ t ∈ split_tokens_go fuel tokens current pending ws input, no_nul t
  | 0, tokens, current, pending, _, _, htok, hcur, hpen, _, t, ht => by
    simp only [split_tokens_go] at ht
    split at ht
    · exact htok t ht
    · rcases List.mem_append.mp ht with h | h
      · exact htok t h
      · simp only [List.mem_singleton] at h
        subst h
        exact no_nul_append hcur hpen
  | fuel + 1, tokens, current, pending, _, [], htok, hcur, hpen, _, t, ht => by
    simp only [split_tokens_go] at ht
    split at ht
    · exact htok t ht
    · rcases List.mem_append.mp ht with h | h
      · exact htok t h
      · simp only [List.mem_singleton] at h
        subst h
        exact no_nul_append hcur hpen
  | fuel + 1, tokens, current, pending, ws, u :: rest, htok, hcur, hpen, hin, t, ht => by
    have hu : u ≠ 0 := hin u (List.mem_cons_self _ _)
    have hin' : no_nul rest := fun v hv => hin v (List.mem_cons_of_mem _ hv)
    simp only [split_tokens_go] at ht
    rcases hseq : (if u = ESC then ansi_seq_len_u16 (u :: rest) else none) with _ | L
    · rw [hseq] at ht
      dsimp only at ht
      by_cases hC : (decide (u = 32) ≠ ws) ∧ current ≠ []
      · rw [if_pos hC] at ht
        dsimp only at ht
        refine split_tokens_go_no_nul fuel (tokens ++ [current]) (pending ++ [u]) [] _ rest
          ?_ ?_ no_nul_nil hin' t ht
        · intro x hx
          rcases List.mem_append.mp hx with h | h
          · exact htok x h
          · simp only [List.mem_singleton] at h
            subst h
            exact hcur
        · refine no_nul_append hpen ?_
          intro v hv
          simp only [List.mem_singleton] at hv
          subst hv
          exact hu
      · rw [if_neg hC] at ht
        dsimp only at ht
        refine split_tokens_go_no_nul fuel tokens ((current ++ pending) ++ [u]) [] _ rest
          htok ?_ no_nul_nil hin' t ht
        refine no_nul_append (no_nul_append hcur hpen) ?_
        intro v hv
        simp only [List.mem_singleton] at hv
        subst hv
        exact hu
    · rw [hseq] at ht
      dsimp only at ht
      exact split_tokens_go_no_nul fuel tokens current (pending ++ (u :: rest).take L) _
        ((u :: rest).drop L) htok hcur
        (no_nul_append hpen (no_nul_mono (fun v hv => List.take_subset _ _ hv) hin))
        (no_nul_mono (fun v hv => List.drop_subset _ _ hv) hin) t ht

theorem blw_ascii_no_nul : ∀ (width tw : Nat) (st : AnsiState) (lines : List (List Nat))
      (cur : List Nat) (cw : Nat) (input : List Nat),
      (∀ l ∈ lines, no_nul l) → no_nul cur → no_nul input →
      (∀ l ∈ (blw_ascii width tw st lines cur cw input).1, no_nul l) ∧
        no_nul (blw_ascii width tw st lines cur cw input).2.1
  | _, _, _, _, _, _, [], hlines, hcur, _ => ⟨hlines, hcur⟩
  | width, tw, st, lines, cur, cw, u :: rest, hlines, hcur, hin => by
    have hu : u ≠ 0 := hin u (List.mem_cons_self _ _)
    have hin' : no_nul rest := fun v hv => hin v (List.mem_cons_of_mem _ hv)
    simp only [blw_ascii]
    by_cases hC : width < cw + ascii_cell_width_u16 u tw
    · rw [if_pos hC]
      dsimp only
      refine blw_ascii_no_nul width tw st _ _ _ rest ?_ ?_ hin'
      · intro l hl
        rcases List.mem_append.mp hl with h | h
        · exact hlines l h
        · simp only [List.mem_singleton] at h
          subst h
          exact no_nul_append hcur (write_line_end_reset_no_nul st)
      · refine no_nul_append (write_active_codes_no_nul st) ?_
        intro v hv
        simp only [List.mem_singleton] at hv
        subst hv
        exact hu
    · rw [if_neg hC]
      dsimp only
      refine blw_ascii_no_nul width tw st _ _ _ rest hlines ?_ hin'
      refine no_nul_append hcur ?_
      intro v hv
      simp only [List.mem_singleton] at hv
      subst hv
      exact hu

theorem blw_graph_no_nul : ∀ (width : Nat) (st : AnsiState) (lines : List (List Nat))
      (cur : List Nat) (cw : Nat) (items : List (List Nat × Nat)),
      (∀ l ∈ lines, no_nul l) → no_nul cur → (∀ p ∈ items, no_nul p.1) →
      (∀ l ∈ (blw_graph width st lines cur cw items).1, no_nul l) ∧
        no_nul (blw_graph width st lines cur cw items).2.1
  | _, _, _, _, _, [], hlines, hcur, _ => ⟨hlines, hcur⟩
  | width, st, lines, cur, cw, (g, gw) :: rest, hlines, hcur, hitems => by
    have hg : no_nul g := hitems (g, gw) (List.mem_cons_self _ _)
    have hitems' : ∀ p ∈ rest, no_nul p.1 := fun p hp => hitems p (List.mem_cons_of_mem _ hp)
    simp only [blw_graph]
    by_cases hC : width < cw + gw
    · rw [if_pos hC]
      dsimp only
      refine blw_graph_no_nul width st _ _ _ rest ?_
        (no_nul_append (write_active_codes_no_nul st) hg) hitems'
      intro l hl
      rcases List.mem_append.mp hl with h | h
      · exact hlines l h
      · simp only [List.mem_singleton] at h
        subst h
        exact no_nul_append hcur (write_line_end_reset_no_nul st)
    · rw [if_neg hC]
      dsimp only
      exact blw_graph_no_nul width st _ _ _ rest hlines (no_nul_append hcur hg) hitems'

theorem blw_go_no_nul (G : GraphemeFn) (width tw : Nat)
    (hG : ∀ (tab : Nat) (seg : List Nat), no_nul seg → ∀ p ∈ G tab seg, no_nul p.1) :
    ∀ (fuel : Nat) (lines : List (List Nat)) (cur : List Nat) (cw : Nat) (st : AnsiState)
      (input : List Nat),
      (∀ l ∈ lines, no_nul l) → no_nul cur → no_nul input →
      (∀ l ∈ (blw_go G width tw fuel lines cur cw st input).1, no_nul l) ∧
        no_nul (blw_go G width tw fuel lines cur cw st input).2.1
  | 0, _, _, _, _, _, hlines, hcur, _ => ⟨hlines, hcur⟩
  | _ + 1, _, _, _, _, [], hlines, hcur, _ => ⟨hlines, hcur⟩
  | fuel + 1, lines, cur, cw, st, u :: rest, hlines, hcur, hin => by
    simp only [blw_go]
    rcases hseq : (if u = ESC then ansi_seq_len_u16 (u :: rest) else none) with _ | L
    · dsimp only
      have hseg : no_nul ((u :: rest).takeWhile (fun v => v ≠ ESC)) :=
        no_nul_mono (fun v hv => (List.takeWhile_sublist _).subset hv) hin
      have hrest : no_nul ((u :: rest).dropWhile (fun v => v ≠ ESC)) :=
        no_nul_mono (fun v hv => (List.dropWhile_sublist _).subset hv) hin
      by_cases hA : ((u :: rest).takeWhile (fun v => v ≠ ESC)).all (fun v => decide (v ≤ 127)) = true
      · rw [if_pos hA]
        obtain ⟨hl', hc'⟩ := blw_ascii_no_nul width tw st lines cur cw
          ((u :: rest).takeWhile (fun v => v ≠ ESC)) hlines hcur hseg
        exact blw_go_no_nul G width tw hG fuel _ _ _ st _ hl' hc' hrest
      · rw [if_neg hA]
        obtain ⟨hl', hc'⟩ := blw_graph_no_nul width st lines cur cw
          (G tw ((u :: rest).takeWhile (fun v => v ≠ ESC))) hlines hcur (hG tw _ hseg)
        exact blw_go_no_nul G width tw hG fuel _ _ _ st _ hl' hc' hrest
    · dsimp only
      exact blw_go_no_nul G width tw hG fuel lines (cur ++ (u :: rest).take L) cw _
        ((u :: rest).drop L) hlines
        (no_nul_append hcur (no_nul_mono (fun v hv => List.take_subset _ _ hv) hin))
        (no_nul_mono (fun v hv => List.drop_subset _ _ hv) hin)

theorem break_long_word_no_nul (G : GraphemeFn)
    (hG : ∀ (tab : Nat) (seg : List Nat), no_nul seg → ∀ p ∈ G tab seg, no_nul p.1)
    (word : List Nat) (width tw : Nat) (st : AnsiState) (hword : no_nul word) :
    ∀ l ∈ (break_long_word G word width tw st).1, no_nul l := by
  intro l hl
  unfold break_long_word at hl
  dsimp only at hl
  obtain ⟨hl', hc'⟩ := blw_go_no_nul G width tw hG (word.length + 1) [] (write_active_codes st)
    0 st word (by simp) (write_active_codes_no_nul st) hword
  split at hl
  · exact hl' l hl
  · rcases List.mem_append.mp hl with h | h
    · exact hl' l h
    · simp only [List.mem_singleton] at h
      subst h
      exact hc'

theorem wrap_tokens_go_no_nul (G : GraphemeFn) (width tw : Nat)
    (hG : ∀ (tab : Nat) (seg : List Nat), no_nul seg → ∀ p ∈ G tab seg, no_nul p.1) :
    ∀ (toks wrapped : List (List Nat)) (cur : List Nat) (cw : Nat) (st : AnsiState),
      (∀ t ∈ toks, no_nul t) → (∀ l ∈ wrapped, no_nul l) → no_nul cur →
      (∀ l ∈ (wrap_tokens_go G width tw toks wrapped cur cw st).1, no_nul l) ∧
        no_nul (wrap_tokens_go G width tw toks wrapped cur cw st).2
  | [], _, _, _, _, _, hw, hc => ⟨hw, hc⟩
  | token :: toks, wrapped, cur, cw, st, htoks, hw, hc => by
    have htok : no_nul token := htoks token (List.mem_cons_self _ _)
    have htoks' : ∀ t ∈ toks, no_nul t := fun t ht => htoks t (List.mem_cons_of_mem _ ht)
    simp only [wrap_tokens_go]
    have hW : ∀ l ∈ (if cur ≠ [] then
          (wrapped ++ [cur ++ write_line_end_reset st], ([] : List Nat), 0)
        else (wrapped, cur, cw)).1, no_nul l := by
      split
      · intro l hl
        rcases List.mem_append.mp hl with h | h
        · exact hw l h
        · simp only [List.mem_singleton] at h
          subst h
          exact no_nul_append hc (write_line_end_reset_no_nul st)
      · exact hw
    have hCur : no_nul (if cur ≠ [] then
          (wrapped ++ [cur ++ write_line_end_reset st], ([] : List Nat), 0)
        else (wrapped, cur, cw)).2.1 := by
      split
      · exact no_nul_nil
      · exact hc
    have hbl := break_long_word_no_nul G hG token width tw st htok
    split
    · rcases hlast : (break_long_word G token width tw st).1.getLast? with _ | last
      · dsimp only
        exact wrap_tokens_go_no_nul G width tw hG toks _ _ _ _ htoks' hW hCur
      · dsimp only
        refine wrap_tokens_go_no_nul G width tw hG toks _ last _ _ htoks' ?_ ?_
        · intro l hl
          rcases List.mem_append.mp hl with h | h
          · exact hW l h
          · exact hbl l ((List.dropLast_sublist _).subset h)
        · have hmem : last ∈ (break_long_word G token width tw st).1 := by
            obtain ⟨hne, h0⟩ := List.mem_getLast?_eq_getLast hlast
            rw [h0]
            exact List.getLast_mem hne
          exact hbl last hmem
    · split
      · have hW' : ∀ l ∈ wrapped ++ [trim_end_spaces cur ++ write_line_end_reset st],
            no_nul l := by
          intro l hl
          rcases List.mem_append.mp hl with h | h
          · exact hw l h
          · simp only [List.mem_singleton] at h
            subst h
            exact no_nul_append (no_nul_mono (trim_end_spaces_subset cur) hc)
              (write_line_end_reset_no_nul st)
        split
        · exact wrap_tokens_go_no_nul G width tw hG toks _ _ _ _ htoks' hW'
            (write_active_codes_no_nul st)
        · exact wrap_tokens_go_no_nul G width tw hG toks _ _ _ _ htoks' hW'
            (no_nul_append (write_active_codes_no_nul st) htok)
      · exact wrap_tokens_go_no_nul G width tw hG toks _ _ _ _ htoks' hw
          (no_nul_append hc htok)

theorem wrap_single_line_no_nul (G : GraphemeFn)
    (hG : ∀ (tab : Nat) (seg : List Nat), no_nul seg → ∀ p ∈ G tab seg, no_nul p.1)
    (line : List Nat) (width tw : Nat) (hline : no_nul line) :
    ∀ L ∈ wrap_single_line G line width tw, no_nul L := by
  intro L hL
  unfold wrap_single_line at hL
  split at hL
  · simp only [List.mem_singleton] at hL
    subst hL
    exact no_nul_nil
  · split at hL
    · simp only [List.mem_singleton] at hL
      subst hL
      exact hline
    · rcases heq : wrap_tokens_go G width tw (split_into_tokens_with_ansi line) [] [] 0
          AnsiState.new with ⟨W, C⟩
      simp only [heq] at hL
      obtain ⟨hw0, hc0⟩ := wrap_tokens_go_no_nul G width tw hG
        (split_into_tokens_with_ansi line) [] [] 0 AnsiState.new
        (fun t ht => split_tokens_go_no_nul (line.length + 1) [] [] [] false line
          (by simp) no_nul_nil no_nul_nil hline t ht)
        (by simp) no_nul_nil
      simp only [heq] at hw0 hc0
      by_cases hMe : (if C ≠ [] then W ++ [C] else W).map trim_end_spaces = []
      · rw [if_pos hMe] at hL
        simp only [List.mem_singleton] at hL
        subst hL
        exact no_nul_nil
      · rw [if_neg hMe] at hL
        simp only [List.mem_map] at hL
        obtain ⟨x, hx, rfl⟩ := hL
        refine no_nul_mono (trim_end_spaces_subset x) ?_
        revert hx
        split
        · intro hx
          rcases List.mem_append.mp hx with h | h
          · exact hw0 x h
          · simp only [List.mem_singleton] at h
            subst h
            exact hc0
        · exact hw0 x

theorem wrap_lines_go_no_nul (G : GraphemeFn) (width tw : Nat)
    (hG : ∀ (tab : Nat) (seg : List Nat), no_nul seg → ∀ p ∈ G tab seg, no_nul p.1) :
    ∀ (segs result : List (List Nat)) (st : AnsiState),
      (∀ s ∈ segs, no_nul s) → (∀ l ∈ result, no_nul l) →
      ∀ L ∈ wrap_lines_go G width tw segs result st, no_nul L
  | [], result, st, _, hres => by
    simpa [wrap_lines_go] using hres
  | seg :: segs, result, st, hsegs, hres => by
    simp only [wrap_lines_go]
    apply wrap_lines_go_no_nul G width tw hG segs _ _
      (fun s hs => hsegs s (List.mem_cons_of_mem _ hs))
    intro L hL
    rcases List.mem_append.mp hL with h | h
    · exact hres L h
    · refine wrap_single_line_no_nul G hG _ width tw ?_ L h
      refine no_nul_append ?_ (hsegs seg (List.mem_cons_self _ _))
      split
      · exact write_active_codes_no_nul st
      · exact no_nul_nil

theorem wrap_impl_no_nul (G : GraphemeFn)
    (hG : ∀ (tab : Nat) (seg : List Nat), no_nul seg → ∀ p ∈ G tab seg, no_nul p.1)
    (text : List Nat) (width tw : Nat) (htext : no_nul text) :
    ∀ L ∈ wrap_text_with_ansi_impl G text width tw, no_nul L := by
  intro L hL
  unfold wrap_text_with_ansi_impl at hL
  split at hL
  · simp only [List.mem_singleton] at hL
    subst hL
    exact no_nul_nil
  · dsimp only at hL
    split at hL
    · simp only [List.mem_singleton] at hL
      subst hL
      exact no_nul_nil
    · exact wrap_lines_go_no_nul G width tw hG (split_nl text) [] AnsiState.new
        (fun s hs => no_nul_mono (split_nl_mem text s hs) htext) (by simp) L hL

/-- The per-unit grapheme oracle only returns graphemes made of the
segment's own units. -/
theorem unit_graphemes_subset : ∀ (tab : Nat) (seg g : List Nat) (w : Nat),
    (g, w) ∈ unit_graphemes tab seg → ∀ u ∈ g, u ∈ seg := by
  intro tab seg g w hg u hu
  unfold unit_graphemes at hg
  rw [List.mem_map] at hg
  obtain ⟨v, hv, heq⟩ := hg
  cases heq
  simp only [List.mem_singleton] at hu
  subst hu
  exact hv

end TextEng

/-- C2 (amended): for every input containing no NUL units — and every
grapheme oracle whose graphemes consist of the segment's own units, as real
segmentation does — every line returned by the public `wrap_text_with_ansi`
either has no trailing space, or is a physical line that already fit within
the requested width and was emitted verbatim (the fast path).  Inputs with
NULs can additionally expose a trailing space on a wrapped line when the
final NUL-strip removes a trailing NUL that shielded the space from
`trim_end_spaces` (see the counterexample theorem). -/
theorem claim_C2_trailing_spaces_amended (G : TextEng.GraphemeFn) (text : List Nat)
    (width : Nat) (tw : Option Nat)
    (hG : ∀ (tab : Nat) (seg g : List Nat) (w : Nat), (g, w) ∈ G tab seg → ∀ u ∈ g, u ∈ seg)
    (htext : ∀ u ∈ text, u ≠ 0) :
    ∀ L ∈ TextEng.wrap_text_with_ansi G text width tw,
      L.getLast? ≠ some 32 ∨
        TextEng.visible_width_u16 G L (TextEng.clamp_tab_width tw) ≤ width := by
  have hGn : ∀ (tab : Nat) (seg : List Nat), TextEng.no_nul seg →
      ∀ p ∈ G tab seg, TextEng.no_nul p.1 :=
    fun tab seg hseg p hp u hu => hseg u (hG tab seg p.1 p.2 hp u hu)
  intro L hL
  unfold TextEng.wrap_text_with_ansi at hL
  rw [List.mem_map] at hL
  obtain ⟨L', hL', rfl⟩ := hL
  rw [TextEng.build_utf16_string_no_nul L'
    (TextEng.wrap_impl_no_nul G hGn text width (TextEng.clamp_tab_width tw) htext L' hL')]
  exact wrap_impl_trailing_cases G text width (TextEng.clamp_tab_width tw) L' hL'

/-- Witness for the amended C2 on a concrete NUL-free input: the first line
produced by wrapping `"hello   world"` at width 5 satisfies the
disjunction. -/
theorem claim_C2_trailing_spaces_amended_witness :
    ([104, 101, 108, 108, 111] : List Nat).getLast? ≠ some 32 ∨
      TextEng.visible_width_u16 TextEng.unit_graphemes [104, 101, 108, 108, 111]
        (TextEng.clamp_tab_width none) ≤ 5 :=
  claim_C2_trailing_spaces_amended TextEng.unit_graphemes
    [104, 101, 108, 108, 111, 32, 32, 32, 119, 111, 114, 108, 100] 5 none
    TextEng.unit_graphemes_subset (by decide) [104, 101, 108, 108, 111] (by decide)
